import Mathlib

/-!
# Grappa: remote memory access, remote execution, delegates and the completion latch

A shallow embedding of `compiler/include/Primitive.hpp`,
`system/CompletionEvent.hpp` and `system/BufferVector.hpp`.

* Cores, tasks and addresses are natural numbers.
* A `long` / `int64_t` is an `Int`; arithmetic on it is reduced with `wrap64`
  (two's complement, 64 bit). A `size_t` / `uint64_t` is a `Nat` reduced modulo 2^64.
* The memory of a core is a function from addresses to cells.
* Closures shipped between cores are values of the type `Message`; the
  handler of each closure is a case of `handle`.
* A member function that starts with a `CHECK` returns a `Checked` value: the
  call returned, or the process aborted with the object as it was.
-/

namespace Grappa

/-! ## Machine integers -/

/-- The two's complement reduction of an integer to the range of `long` / `int64_t`. -/
def wrap64 (x : Int) : Int :=
  (x + 9223372036854775808) % 18446744073709551616 - 9223372036854775808

/-- The values a `long` / `int64_t` can hold. -/
def inInt64 (x : Int) : Prop :=
  -9223372036854775808 ≤ x ∧ x ≤ 9223372036854775807

instance (x : Int) : Decidable (inInt64 x) := by
  unfold inInt64; exact inferInstance

/-! ## Addressing -/

/-- A core identifier (`Core`). -/
abbrev Core := Nat

/-- A core-local address (the value of a local pointer). -/
abbrev Addr := Nat

/-- A task (worker) identifier. -/
abbrev Task := Nat

/-- Modelled from the spec: `GlobalAddress<T>` of `Addressing.hpp`, which is not among
the sources: a cluster-wide pointer made of the owning core and the local address within
that core's memory; two global addresses are equal iff both fields match. -/
structure GlobalAddress where
  core : Core
  pointer : Addr
deriving DecidableEq, Repr

/-- Modelled from the spec: the raw-bits encoding of a global address, the value a
`T global*` pointer carries (`GlobalAddress::raw_bits` / `GlobalAddress::Raw` of
`Addressing.hpp`, not among the sources): an opaque word holding both fields. -/
structure GlobalPtr where
  bits : GlobalAddress
deriving DecidableEq, Repr

/-- Modelled from the spec: `GlobalAddress<T>::raw_bits()`. -/
def GlobalAddress.raw_bits (ga : GlobalAddress) : GlobalPtr := ⟨ga⟩

/-- Modelled from the spec: `GlobalAddress<T>::Raw(bits)`. -/
def GlobalAddress.Raw (p : GlobalPtr) : GlobalAddress := p.bits

/-- Modelled from the spec: `make_global(t, n)`: the global address of the local
pointer `t` on core `n`. -/
def make_global (t : Addr) (n : Core) : GlobalAddress := ⟨n, t⟩

/-- `gptr(ga)`: `reinterpret_cast<T global*>(ga.raw_bits())`. -/
def gptr (ga : GlobalAddress) : GlobalPtr := ga.raw_bits

/-- `gaddr(ptr)`: `GlobalAddress<T>::Raw(reinterpret_cast<intptr_t>(ptr))`. -/
def gaddr (ptr : GlobalPtr) : GlobalAddress := GlobalAddress.Raw ptr

/-- `Grappa::core(g)`: `gaddr(g).core()`. -/
def core (g : GlobalPtr) : Core := (gaddr g).core

/-- `Grappa::pointer(g)`: `gaddr(g).pointer()`. -/
def pointer (g : GlobalPtr) : Addr := (gaddr g).pointer

/-- `Grappa::globalize(t, n)`: `gptr(make_global(t, n))`; the source's default for `n`
is `Grappa::mycore()`, which the caller passes here. -/
def globalize (t : Addr) (n : Core) : GlobalPtr := gptr (make_global t n)

/-! ## Delegate fetch-and-add -/

/-- The `long` objects of one core, by local address. -/
abbrev LongMem := Addr → Int

/-- `struct delegate_fetch_add_args`. -/
structure delegate_fetch_add_args where
  addr : GlobalPtr
  increment : Int

/-- `struct delegate_fetch_add_out`. -/
structure delegate_fetch_add_out where
  before_val : Int
deriving DecidableEq, Repr

/-- `delegate_fetch_add(args_v, out_v)`, run on the memory `mem` of the executing core:
`p = Grappa::pointer(args->addr); out->before_val = *p; *p += args->increment;`.
Returns the memory and the `out` structure as the call leaves them. -/
def delegate_fetch_add (mem : LongMem) (args : delegate_fetch_add_args)
    (out : delegate_fetch_add_out) : LongMem × delegate_fetch_add_out :=
  let p := pointer args.addr
  let out1 : delegate_fetch_add_out := { out with before_val := mem p }
  let mem1 := Function.update mem p (wrap64 (mem p + args.increment))
  (mem1, out1)

/-- A reading of the `long` at a local address, on the owning core. -/
def read_long (mem : LongMem) (p : Addr) : Int := mem p

/-- The owning core serving fetch-and-add requests one handler invocation at a time,
in arrival order. Each request is the origin core together with the shipped arguments;
each reply is the origin together with the `out` structure shipped back. -/
def serve (mem : LongMem) :
    List (Core × delegate_fetch_add_args) → LongMem × List (Core × delegate_fetch_add_out)
  | [] => (mem, [])
  | (origin, args) :: rest =>
    let r := delegate_fetch_add mem args ⟨0⟩
    let s := serve r.1 rest
    (s.1, (origin, r.2) :: s.2)

/-- The requests of `fetch_and_add(addr, 1)` issued by the cores `origins`, in arrival order. -/
def incRequests (addr : GlobalPtr) (origins : List Core) :
    List (Core × delegate_fetch_add_args) :=
  origins.map fun o => (o, { addr := addr, increment := 1 })

/-- The before-values returned to the callers, in arrival order. -/
def befores (replies : List (Core × delegate_fetch_add_out)) : List Int :=
  replies.map fun r => r.2.before_val

/-- The statement of fetch-and-add atomicity for `N` calls: for every memory whose cell at
the address holds 0 and every arrival order of the `N` origins, the before-values are
pairwise distinct, their multiset is `{0, ..., N-1}` and the final value is `N`. -/
def FetchAddAtomic (N : Nat) : Prop :=
  ∀ (mem : LongMem) (addr : GlobalPtr) (origins : List Core),
    mem (pointer addr) = 0 → origins.length = N →
    (befores (serve mem (incRequests addr origins)).2).Nodup ∧
    (↑(befores (serve mem (incRequests addr origins)).2) : Multiset Int)
      = (Multiset.range N).map (fun i : Nat => (i : Int)) ∧
    read_long (serve mem (incRequests addr origins)).1 (pointer addr) = (N : Int)

/-! ## The completion latch (`CompletionEvent`) -/

/-- The severities of `LOG(...)`; only `FATAL` aborts the process. -/
inductive Severity
  | INFO | WARNING | ERROR | FATAL
deriving DecidableEq, Repr

/-- What an operation on a latch does besides changing the latch: a line written with
`LOG`, a `broadcast` resuming the listed tasks, or the suspension of the calling task. -/
inductive Event
  | log (sev : Severity) (msg : String)
  | broadcast (woken : List Task)
  | suspend (t : Task)
deriving DecidableEq, Repr

/-- Modelled from the spec: `ConditionVariable` of `ConditionVariableLocal.hpp`, which is
not among the sources: the queue of tasks suspended on it (the wait-set). -/
structure ConditionVariable where
  waiters : List Task
deriving DecidableEq, Repr

/-- Modelled from the spec: `Grappa::broadcast(&cv)`, wake-all on the wait-set: every
waiting task is resumed and the wait-set is left empty. -/
def broadcast (cv : ConditionVariable) : ConditionVariable × List Event :=
  ({ waiters := [] }, [Event.broadcast cv.waiters])

/-- Modelled from the spec: `Grappa::wait(&cv)` called by task `t`: the task is suspended
on the wait-set. -/
def wait (cv : ConditionVariable) (t : Task) : ConditionVariable × List Event :=
  ({ waiters := cv.waiters ++ [t] }, [Event.suspend t])

/-- `class CompletionEvent`: a condition variable and a signed 64-bit count. -/
structure CompletionEvent where
  cv : ConditionVariable
  count : Int
deriving DecidableEq, Repr

/-- `CompletionEvent(int64_t count = 0)`: the constructor; nobody waits yet. -/
def CompletionEvent.new (count : Int) : CompletionEvent :=
  { cv := { waiters := [] }, count := count }

/-- `CompletionEvent::enroll(inc)`: `count += inc`. -/
def CompletionEvent.enroll (ce : CompletionEvent) (inc : Int) :
    CompletionEvent × List Event :=
  ({ ce with count := wrap64 (ce.count + inc) }, [])

/-- `CompletionEvent::complete()`: log an error when the count is already 0, decrement,
and broadcast when the count has become 0. -/
def CompletionEvent.complete (ce : CompletionEvent) : CompletionEvent × List Event :=
  let log1 : List Event :=
    if ce.count = 0 then [Event.log Severity.ERROR "too many calls to signal()"] else []
  let count1 := wrap64 (ce.count - 1)
  if count1 = 0 then
    let b := broadcast ce.cv
    ({ cv := b.1, count := count1 }, log1 ++ b.2)
  else
    ({ cv := ce.cv, count := count1 }, log1)

/-- `CompletionEvent::wait()` called by task `t`: suspend on the condition variable
when the count is positive, return at once otherwise. -/
def CompletionEvent.wait (ce : CompletionEvent) (t : Task) : CompletionEvent × List Event :=
  if ce.count > 0 then
    let w := Grappa.wait ce.cv t
    ({ ce with cv := w.1 }, w.2)
  else
    (ce, [])

/-- One call on a latch. -/
inductive Op
  | enroll (inc : Int)
  | complete
  | wait (t : Task)
deriving DecidableEq, Repr

/-- The effect of one call: the latch afterwards and what the call did. -/
def CompletionEvent.step (ce : CompletionEvent) : Op → CompletionEvent × List Event
  | Op.enroll inc => ce.enroll inc
  | Op.complete => ce.complete
  | Op.wait t => ce.wait t

/-- A sequence of calls, one after the other; for each call the latch right after it and
the events of that call. -/
def CompletionEvent.run (ce : CompletionEvent) : List Op → List (CompletionEvent × List Event)
  | [] => []
  | op :: ops => ce.step op :: (ce.step op).1.run ops

/-- The latch after a sequence of calls. -/
def CompletionEvent.after (ce : CompletionEvent) : List Op → CompletionEvent
  | [] => ce
  | op :: ops => (ce.step op).1.after ops

/-- Whether an event is a broadcast. -/
def Event.isBroadcast : Event → Bool
  | Event.broadcast _ => true
  | _ => false

/-- Whether an event list holds a broadcast. -/
def hasBroadcast (evs : List Event) : Bool :=
  evs.any Event.isBroadcast

/-- The number of broadcasts in the trace of a sequence of calls. -/
def broadcasts (tr : List (CompletionEvent × List Event)) : Nat :=
  (tr.map fun r => r.2.countP Event.isBroadcast).sum

/-- Whether an event list holds a line logged with `FATAL`, i.e. the call aborts. -/
def aborts (evs : List Event) : Bool :=
  evs.any fun e => match e with
    | Event.log Severity.FATAL _ => true
    | _ => false

/-- The number of `complete()` calls in a sequence. -/
def completions (ops : List Op) : Nat :=
  (ops.filter fun o => decide (o = Op.complete)).length

/-- The tasks that call `wait()` in a sequence, in order. -/
def waitCalls : List Op → List Task
  | [] => []
  | Op.wait t :: ops => t :: waitCalls ops
  | _ :: ops => waitCalls ops

/-- Whether a call is an `enroll`. -/
def Op.isEnroll : Op → Bool
  | Op.enroll _ => true
  | _ => false

/-! ## Byte memory -/

/-- One byte. -/
abbrev Byte := Fin 256

/-- The bytes of one core's memory, by local address. -/
abbrev Mem := Addr → Byte

/-- The `n` bytes stored from address `p` on. -/
def readBytes (m : Mem) (p : Addr) : Nat → List Byte
  | 0 => []
  | n + 1 => m p :: readBytes m (p + 1) n

/-- The memory after the bytes `bs` are stored from address `p` on. -/
def writeBytes (m : Mem) (p : Addr) : List Byte → Mem
  | [] => m
  | b :: bs => writeBytes (Function.update m p b) (p + 1) bs

/-- `memcpy(dst, src, n)` between two buffers of the same memory: the `n` bytes read at
`src` are stored at `dst`. -/
def memcpy (m : Mem) (dst src : Addr) (n : Nat) : Mem :=
  writeBytes m dst (readBytes m src n)

/-! ## Full/empty cells -/

/-- The state of a full/empty cell. -/
inductive FEState
  | EMPTY | FULL
deriving DecidableEq, Repr

/-- Modelled from the spec: `FullEmpty<T>` of the runtime, which is not among the
sources: one value, a state in {Empty, Full}, and the queue of tasks suspended waiting
for Full. -/
structure FullEmpty (α : Type) where
  state : FEState
  t_ : α
  waiters : List Task

/-- Modelled from the spec: `FullEmpty<T>(t)`, the cell created Full with the value `t`. -/
def FullEmpty.init {α : Type} (t : α) : FullEmpty α :=
  { state := FEState.FULL, t_ := t, waiters := [] }

/-- Modelled from the spec: `FullEmpty<T>()`, the cell created Empty. -/
def FullEmpty.empty {α : Type} [Inhabited α] : FullEmpty α :=
  { state := FEState.EMPTY, t_ := default, waiters := [] }

/-- Modelled from the spec: `reset()`, back to Empty; the slot keeps its contents. -/
def FullEmpty.reset {α : Type} (c : FullEmpty α) : FullEmpty α :=
  { c with state := FEState.EMPTY }

/-- Modelled from the spec: `readXX()`, the non-blocking read of the slot that does not
touch the state machine. -/
def FullEmpty.readXX {α : Type} (c : FullEmpty α) : α := c.t_

/-- Modelled from the spec: `writeEF(v)`: on an Empty cell, store `v`, mark the cell Full
and wake all waiters (returned); on a Full cell the writer has to block (`none`). -/
def FullEmpty.writeEF {α : Type} (c : FullEmpty α) (v : α) : Option (FullEmpty α × List Task) :=
  match c.state with
  | FEState.EMPTY => some ({ state := FEState.FULL, t_ := v, waiters := [] }, c.waiters)
  | FEState.FULL => none

/-- The outcome of a blocking call for the calling task. -/
inductive Status
  | returned
  | suspended
deriving DecidableEq, Repr

/-- Modelled from the spec: `readFF()` called by task `t`: on a Full cell it returns at
once, on an Empty cell the task is suspended in the cell's queue until the cell is
fulfilled. -/
def FullEmpty.readFF {α : Type} (c : FullEmpty α) (t : Task) : FullEmpty α × Status :=
  match c.state with
  | FEState.FULL => (c, Status.returned)
  | FEState.EMPTY => ({ c with waiters := c.waiters ++ [t] }, Status.suspended)

/-! ## Closures, the cluster and the handlers -/

/-- A flat function `void (*fn)(void* args, void* out)`: called on the memory of the
executing core with the two raw pointers, it leaves that memory as it returns. -/
abbrev FlatFn := Mem → Addr → Addr → Mem

/-- The closures of `Primitive.hpp` that are shipped between cores, each with its
captures and its payload. -/
inductive Message
  | get_request (ga : GlobalAddress) (sz : Nat) (g_result : GlobalAddress)
  | get_reply (g_result : GlobalAddress) (payload : List Byte)
  | put_request (dest : GlobalPtr) (sz : Nat) (g_result : GlobalAddress) (payload : List Byte)
  | put_reply (g_result : GlobalAddress)
  | on_request (fn : FlatFn) (out_sz : Nat) (gfe : GlobalAddress) (args : List Byte)
  | on_reply (gfe : GlobalAddress) (out : List Byte)

/-- The cluster: the memory of each core, the `FullEmpty<void*>` and `FullEmpty<bool>`
objects of each core by address, for each core the address of the buffer in which the
payload of a delivered `grappa_on` request lies (the pointer its handler passes to `fn`) and
the address of the local array `out` in the frame of that handler, the closures shipped and
not yet delivered, the tasks resumed so far, and the handlers suspended in `writeEF` on a
cell that was Full. -/
structure World where
  mem : Core → Mem
  cells : Core → Addr → FullEmpty Addr
  flags : Core → Addr → FullEmpty Bool
  payloadAt : Core → Addr
  frameAt : Core → Addr
  net : List (Core × Message)
  ready : List (Core × Task)
  blocked : List (Core × Message)

/-- The memory of core `c` replaced by `m`. -/
def World.setMem (w : World) (c : Core) (m : Mem) : World :=
  { w with mem := Function.update w.mem c m }

/-- The `FullEmpty<void*>` object at address `a` of core `c` replaced by `fe`. -/
def World.setCell (w : World) (c : Core) (a : Addr) (fe : FullEmpty Addr) : World :=
  { w with cells := Function.update w.cells c (Function.update (w.cells c) a fe) }

/-- The `FullEmpty<bool>` object at address `a` of core `c` replaced by `fe`. -/
def World.setFlag (w : World) (c : Core) (a : Addr) (fe : FullEmpty Bool) : World :=
  { w with flags := Function.update w.flags c (Function.update (w.flags c) a fe) }

/-- The tasks `ts` of core `c` resumed. -/
def World.wake (w : World) (c : Core) (ts : List Task) : World :=
  { w with ready := w.ready ++ ts.map fun t => (c, t) }

/-- The handler of closure `m` on core `c` suspended in `writeEF`. -/
def World.block (w : World) (c : Core) (m : Message) : World :=
  { w with blocked := w.blocked ++ [(c, m)] }

/-- Modelled from the spec: `send_heap_message(dest, closure, payload, size)`, the
transport's ship-closure-to-core: the closure is in flight to `dest`. -/
def send_heap_message (w : World) (dest : Core) (m : Message) : World :=
  { w with net := w.net ++ [(dest, m)] }

/-- The handler of a delivered closure run on core `c`. A handler whose `writeEF` finds the
cell already Full is suspended there. -/
def handle (w : World) (c : Core) : Message → World
  | Message.get_request ga sz g_result =>
    send_heap_message w g_result.core
      (Message.get_reply g_result (readBytes (w.mem c) ga.pointer sz))
  | Message.get_reply g_result payload =>
    let r := g_result.pointer
    let dest_addr := (w.cells c r).readXX
    let w1 := w.setMem c (writeBytes (w.mem c) dest_addr payload)
    match (w1.cells c r).writeEF dest_addr with
    | none => w1.block c (Message.get_reply g_result payload)
    | some (fe, woken) => (w1.setCell c r fe).wake c woken
  | Message.put_request dest sz g_result payload =>
    let w1 := w.setMem c (writeBytes (w.mem c) (pointer dest) (payload.take sz))
    send_heap_message w1 g_result.core (Message.put_reply g_result)
  | Message.put_reply g_result =>
    match (w.flags c g_result.pointer).writeEF true with
    | none => w.block c (Message.put_reply g_result)
    | some (fe, woken) => (w.setFlag c g_result.pointer fe).wake c woken
  | Message.on_request fn out_sz gfe args =>
    let m0 := writeBytes (w.mem c) (w.payloadAt c) args
    let m1 := fn m0 (w.payloadAt c) (w.frameAt c)
    let out := readBytes m1 (w.frameAt c) out_sz
    let w1 := w.setMem c m1
    send_heap_message w1 gfe.core (Message.on_reply gfe out)
  | Message.on_reply gfe out =>
    let r := (w.cells c gfe.pointer).readXX
    let w1 := w.setMem c (writeBytes (w.mem c) r out)
    match (w1.cells c gfe.pointer).writeEF r with
    | none => w1.block c (Message.on_reply gfe out)
    | some (fe, woken) => (w1.setCell c gfe.pointer fe).wake c woken

/-- The delivery of the in-flight closure number `i`: it leaves the network and its
handler runs once on the core it was shipped to. Nothing happens when there is no such
closure. -/
def deliver (w : World) (i : Nat) : World :=
  match w.net[i]? with
  | none => w
  | some (c, m) => handle { w with net := w.net.eraseIdx i } c m

/-- `grappa_get(addr, src, sz)` called by task `self` of core `mycore`; `result` is the
address of the stack object `result`. The world when the call returns or suspends in
`result.readFF()`, and which of the two. -/
def grappa_get (w : World) (mycore : Core) (self : Task) (result : Addr)
    (addr : Addr) (src : GlobalPtr) (sz : Nat) : World × Status :=
  let ga := gaddr src
  let origin := mycore
  let dest := ga.core
  if dest = origin then
    (w.setMem origin (memcpy (w.mem origin) addr ga.pointer sz), Status.returned)
  else
    let fe := (FullEmpty.init addr).reset
    let g_result := make_global result origin
    let w1 := send_heap_message (w.setCell origin result fe) dest
      (Message.get_request ga sz g_result)
    let r := (w1.cells origin result).readFF self
    (w1.setCell origin result r.1, r.2)

/-- `grappa_put(dest, src, sz)` called by task `self` of core `mycore`; `result` is the
address of the stack object `result`. -/
def grappa_put (w : World) (mycore : Core) (self : Task) (result : Addr)
    (dest : GlobalPtr) (src : Addr) (sz : Nat) : World × Status :=
  let origin := mycore
  if core dest = origin then
    (w.setMem origin (memcpy (w.mem origin) (pointer dest) src sz), Status.returned)
  else
    let fe : FullEmpty Bool := FullEmpty.empty
    let g_result := make_global result origin
    let w1 := send_heap_message (w.setFlag origin result fe) (core dest)
      (Message.put_request dest sz g_result (readBytes (w.mem origin) src sz))
    let r := (w1.flags origin result).readFF self
    (w1.setFlag origin result r.1, r.2)

/-- `grappa_on(dst, fn, args, args_sz, out, out_sz)` called by task `self` of core
`mycore`; `fe` is the address of the stack object `fe`. The local branch is the direct call
`fn(args, out)` on the caller's pointers; the remote branch ships the `args_sz` bytes behind
`args`, and the request handler calls `fn` on the delivered payload and its local array. -/
def grappa_on (w : World) (mycore : Core) (self : Task) (fe : Addr)
    (dst : Core) (fn : FlatFn) (args : Addr) (args_sz : Nat) (out : Addr) (out_sz : Nat) :
    World × Status :=
  let origin := mycore
  if dst = origin then
    (w.setMem origin (fn (w.mem origin) args out), Status.returned)
  else
    let cell := (FullEmpty.init out).reset
    let gfe := make_global fe origin
    let w1 := send_heap_message (w.setCell origin fe cell) dst
      (Message.on_request fn out_sz gfe (readBytes (w.mem origin) args args_sz))
    let r := (w1.cells origin fe).readFF self
    (w1.setCell origin fe r.1, r.2)

/-! ## Predicates used to state the contracts -/

/-- The memory `m1` is `m` after a direct copy of `n` bytes from `src` to `dst`: the `n`
bytes at `dst` are the `n` bytes `m` held at `src`, and every byte outside the destination
is the one `m` held. -/
def DirectCopy (m m1 : Mem) (dst src : Addr) (n : Nat) : Prop :=
  readBytes m1 dst n = readBytes m src n ∧ ∀ a, (a < dst ∨ dst + n ≤ a) → m1 a = m a

/-- Between `w` and `w1` no closure was shipped or delivered, no task was suspended or
resumed, and no full/empty cell changed. -/
def NoTraffic (w w1 : World) : Prop :=
  w1.net = w.net ∧ w1.ready = w.ready ∧ w1.cells = w.cells ∧ w1.flags = w.flags ∧
  w1.blocked = w.blocked

/-- A cluster used in the examples: every core holds the byte `a mod 256` at address `a`,
every cell is Full, payloads are delivered at address 4096 and the handler's array is at
8192, nothing is in flight. -/
def World.example : World :=
  { mem := fun _ a => Fin.ofNat a
    cells := fun _ _ => FullEmpty.init 0
    flags := fun _ _ => FullEmpty.init false
    payloadAt := fun _ => 4096
    frameAt := fun _ => 8192
    net := []
    ready := []
    blocked := [] }

/-- The memory of core 1 in Scenario A: the 8 bytes of `0x1122334455667788`, lowest byte
first, at address 256. -/
def scenarioA : Mem :=
  writeBytes (fun _ => 0) 256 [0x88, 0x77, 0x66, 0x55, 0x44, 0x33, 0x22, 0x11]

/-- A flat function used in the examples, the two-byte swap
`out[0] = args[1]; out[1] = args[0];`. -/
def swapFn : FlatFn := fun m args out =>
  let m1 := Function.update m out (m (args + 1))
  Function.update m1 (out + 1) (m1 args)

/-- The buffer of `n1` bytes at `a` and the buffer of `n2` bytes at `b` do not overlap. -/
def NoOverlap (a n1 b n2 : Nat) : Prop := a + n1 ≤ b ∨ b + n2 ≤ a

instance (a n1 b n2 : Nat) : Decidable (NoOverlap a n1 b n2) := by
  unfold NoOverlap; exact inferInstance

/-- The output of `fn` is `g` of its argument bytes: whenever the `args_sz` bytes behind
`args` and the `out_sz` bytes behind `out` do not overlap, the bytes behind `out` after the
call are `g` of the bytes behind `args` before it, whatever the rest of the memory holds. -/
def Flat (fn : FlatFn) (args_sz out_sz : Nat) (g : List Byte → List Byte) : Prop :=
  ∀ (m : Mem) (a o : Nat), NoOverlap a args_sz o out_sz →
    readBytes (fn m a o) o out_sz = g (readBytes m a args_sz)

/-! ## Addressing: the default owner -/

/-- `Grappa::globalize(t)` with the core left out: the default argument of the source is
`Grappa::mycore()`, the core the call runs on. -/
def globalize_mycore (mycore : Core) (t : Addr) : GlobalPtr := globalize t mycore

/-! ## The growable buffer (`BufferVector`) -/

/-- `enum OpMode { RO, WO }`. -/
inductive OpMode
  | RO | WO
deriving DecidableEq, Repr

/-- The outcome of a member function that starts with a `CHECK`: it returns with the
object in state `s` and the value `a`, or the failed `CHECK` aborts the process with the
message `msg`, the object being in state `s` at that moment. -/
inductive Checked (σ α : Type) where
  | ok (s : σ) (a : α)
  | abort (msg : String) (s : σ)

/-- Whether the call returned. -/
def Checked.succeeds {σ α : Type} : Checked σ α → Bool
  | Checked.ok _ _ => true
  | Checked.abort _ _ => false

/-- The state of the object when the call returned or aborted. -/
def Checked.state {σ α : Type} : Checked σ α → σ
  | Checked.ok s _ => s
  | Checked.abort _ s => s

/-- `sizeof(T)` for an element type of the vector: at least one byte. -/
class Sized (T : Type) where
  sizeof : Nat
  sizeof_pos : 0 < sizeof

/-- The element type of the examples, a 64-bit unsigned integer: 8 bytes. -/
instance : Sized Nat := ⟨8, by decide⟩

/-- A heap block seen as an array of `T`: `bytes` is the extent the allocator was asked
for, `cells` the elements by index, `none` being an element that was never stored. The
cells are not cut at the extent, so a store past the end of the block is visible as a
store at an index the block does not hold. -/
structure Block (T : Type) where
  bytes : Nat
  cells : Nat → Option T

instance {T : Type} : CoeFun (Block T) (fun _ => Nat → Option T) := ⟨Block.cells⟩

/-- The element number `i` lies inside the block: its last byte is within the extent. -/
def Block.holds {T : Type} [Sized T] (b : Block T) (i : Nat) : Prop :=
  (i + 1) * Sized.sizeof T ≤ b.bytes

instance {T : Type} [Sized T] (b : Block T) (i : Nat) : Decidable (b.holds i) := by
  unfold Block.holds; exact inferInstance

/-- `buf[i] = v`. -/
def Block.store {T : Type} (b : Block T) (i : Nat) (v : T) : Block T :=
  { b with cells := Function.update b.cells i (some v) }

/-- `class BufferVector<T>`. `buf` is the block the pointer `buf` designates; `size`
(a `size_t`) and `nextIndex` (a `uint64_t`) are natural numbers below 2^64, every
operation on them being reduced modulo 2^64. -/
structure BufferVector (T : Type) where
  buf : Block T
  size : Nat
  nextIndex : Nat
  mode : OpMode

/-- Modelled from the spec: `locale_shared_memory.allocate(bytes)` of
`LocaleSharedMemory.hpp`, which is not among the sources: a fresh block of `bytes` bytes,
no element initialised. The request is taken to succeed; the exhaustion of the allocator
is fatal and not handled by this component. -/
def allocate (T : Type) (bytes : Nat) : Block T :=
  { bytes := bytes, cells := fun _ => none }

/-- `memcpy(newbuf, buf, nbytes)`: the elements of `buf` that the first `nbytes` bytes
cover are copied to the start of `newbuf`, whose extent is unchanged. -/
def memcpyElems {T : Type} [Sized T] (newbuf buf : Block T) (nbytes : Nat) : Block T :=
  { newbuf with
    cells := fun i => if i < nbytes / Sized.sizeof T then buf.cells i else newbuf.cells i }

/-- `BufferVector(size_t capacity = 2)`: a fresh block of `capacity*sizeof(T)` bytes, the
product being a `size_t`; mode WO, nothing stored, `size = capacity`. -/
def BufferVector.new (T : Type) [Sized T] (capacity : Nat := 2) : BufferVector T :=
  { buf := allocate T ((capacity * Sized.sizeof T) % 18446744073709551616)
    mode := OpMode.WO
    nextIndex := 0
    size := capacity }

/-- `setWriteMode()`: `CHECK( mode != WO ) << "already in WO mode"; mode = WO;`. -/
def BufferVector.setWriteMode {T : Type} (bv : BufferVector T) : Checked (BufferVector T) Unit :=
  if bv.mode ≠ OpMode.WO then
    Checked.ok { bv with mode := OpMode.WO } ()
  else
    Checked.abort "already in WO mode" bv

/-- `setReadMode()`: `CHECK( mode != RO ) << "already in RO mode"; mode = RO;`. -/
def BufferVector.setReadMode {T : Type} (bv : BufferVector T) : Checked (BufferVector T) Unit :=
  if bv.mode ≠ OpMode.RO then
    Checked.ok { bv with mode := OpMode.RO } ()
  else
    Checked.abort "already in RO mode" bv

/-- The first half of `insert`: when `nextIndex == size`, `newsize = size * 2` (a
`size_t`), a fresh block of `newsize*sizeof(T)` bytes receives a copy of the first
`size*sizeof(T)` bytes of the old one and becomes the block of the vector. -/
def BufferVector.grow {T : Type} [Sized T] (bv : BufferVector T) : BufferVector T :=
  if bv.nextIndex = bv.size then
    let newsize := (bv.size * 2) % 18446744073709551616
    let newbuf := allocate T ((newsize * Sized.sizeof T) % 18446744073709551616)
    let newbuf := memcpyElems newbuf bv.buf ((bv.size * Sized.sizeof T) % 18446744073709551616)
    { bv with size := newsize, buf := newbuf }
  else
    bv

/-- `insert(v)`: `CHECK( mode == WO )`, the growth step, then `buf[nextIndex++] = v`. -/
def BufferVector.insert {T : Type} [Sized T] (bv : BufferVector T) (v : T) :
    Checked (BufferVector T) Unit :=
  if bv.mode = OpMode.WO then
    let bv1 := bv.grow
    Checked.ok { bv1 with
      buf := bv1.buf.store bv1.nextIndex v
      nextIndex := (bv1.nextIndex + 1) % 18446744073709551616 } ()
  else
    Checked.abort "Must be in WO mode to insert" bv

/-- `getReadBuffer()`: `CHECK( mode == RO )`, then the global address of the storage,
given here by the block it designates. -/
def BufferVector.getReadBuffer {T : Type} (bv : BufferVector T) :
    Checked (BufferVector T) (Block T) :=
  if bv.mode = OpMode.RO then
    Checked.ok bv bv.buf
  else
    Checked.abort "Must be in RO mode to see buffer" bv

/-- `getLength()`: `nextIndex`. -/
def BufferVector.getLength {T : Type} (bv : BufferVector T) : Nat := bv.nextIndex

/-- One call on a `BufferVector`. -/
inductive BVOp (T : Type)
  | setWriteMode
  | setReadMode
  | insert (v : T)
  | getReadBuffer
  | getLength

/-- The object after one call, `none` when the call aborted the process. -/
def BufferVector.apply {T : Type} [Sized T] (bv : BufferVector T) :
    BVOp T → Option (BufferVector T)
  | BVOp.setWriteMode =>
    match bv.setWriteMode with
    | Checked.ok s _ => some s
    | Checked.abort _ _ => none
  | BVOp.setReadMode =>
    match bv.setReadMode with
    | Checked.ok s _ => some s
    | Checked.abort _ _ => none
  | BVOp.insert v =>
    match bv.insert v with
    | Checked.ok s _ => some s
    | Checked.abort _ _ => none
  | BVOp.getReadBuffer =>
    match bv.getReadBuffer with
    | Checked.ok s _ => some s
    | Checked.abort _ _ => none
  | BVOp.getLength => some bv

/-- The object after a sequence of calls, `none` when one of them aborted. -/
def BufferVector.exec {T : Type} [Sized T] (bv : BufferVector T) :
    List (BVOp T) → Option (BufferVector T)
  | [] => some bv
  | op :: ops =>
    match bv.apply op with
    | none => none
    | some s => s.exec ops

/-- The first `n` elements of the block, as far as they were stored. -/
def BufferVector.contents {T : Type} (bv : BufferVector T) (n : Nat) : List (Option T) :=
  (List.range n).map bv.buf.cells

/-- The number of `insert` calls in a sequence. -/
def inserts {T : Type} : List (BVOp T) → Nat
  | [] => 0
  | BVOp.insert _ :: ops => inserts ops + 1
  | _ :: ops => inserts ops

/-- The state of a vector constructed with capacity `c` after `n` inserts, as long as no
byte count has wrapped: `nextIndex` is `n`, not above `size`; `size` is `c` times a power of
two; the block has room for exactly `size` elements. -/
def BufferVector.Inv {T : Type} [Sized T] (c n : Nat) (bv : BufferVector T) : Prop :=
  bv.nextIndex = n ∧ n ≤ bv.size ∧ (∃ k, bv.size = c * 2 ^ k) ∧
  bv.buf.bytes = bv.size * Sized.sizeof T ∧
  bv.size * Sized.sizeof T < 18446744073709551616

/-! ## The latch across cores -/

/-- Modelled from the spec: `GlobalAddress<T>::node()` of `Addressing.hpp`, the owning
core of the address. -/
def GlobalAddress.node (ga : GlobalAddress) : Core := ga.core

/-- The closure `[ce] { ce.pointer()->complete(); }` that
`complete(GlobalAddress<CompletionEvent>)` ships. -/
structure CompleteClosure where
  ce : GlobalAddress
deriving DecidableEq, Repr

/-- The latches of the cluster: the `CompletionEvent` objects of each core by address, what
the latch operations run on each core did there (error lines, wake-ups), and the closures
shipped and not yet delivered. -/
structure LatchWorld where
  latches : Core → Addr → CompletionEvent
  events : Core → List Event
  sent : List (Core × CompleteClosure)

/-- `p->complete()` executed on core `c`: the latch at address `p` of that core performs
`CompletionEvent::complete()`. -/
def LatchWorld.completeAt (w : LatchWorld) (c : Core) (p : Addr) : LatchWorld :=
  let r := (w.latches c p).complete
  { w with
    latches := Function.update w.latches c (Function.update (w.latches c) p r.1)
    events := Function.update w.events c (w.events c ++ r.2) }

/-- Modelled from the spec: `send_message(dest, closure)` of `Message.hpp`, the transport's
ship-closure-to-core: the closure is in flight to `dest`. -/
def send_message (w : LatchWorld) (dest : Core) (m : CompleteClosure) : LatchWorld :=
  { w with sent := w.sent ++ [(dest, m)] }

/-- The handler of the shipped closure run on core `c`: `ce.pointer()->complete()`. -/
def CompleteClosure.handler (m : CompleteClosure) (w : LatchWorld) (c : Core) : LatchWorld :=
  w.completeAt c m.ce.pointer

/-- `Grappa::complete(GlobalAddress<CompletionEvent> ce)` called on core `mycore`. -/
def complete (w : LatchWorld) (mycore : Core) (ce : GlobalAddress) : LatchWorld :=
  if ce.node = mycore then
    w.completeAt mycore ce.pointer
  else
    send_message w ce.node { ce := ce }

/-- The delivery of the shipped closure number `i`: it leaves the network and its handler
runs once on the core it was shipped to. -/
def LatchWorld.deliver (w : LatchWorld) (i : Nat) : LatchWorld :=
  match w.sent[i]? with
  | none => w
  | some (c, m) => m.handler { w with sent := w.sent.eraseIdx i } c

/-! ## Private tasks that complete a latch -/

/-- A callable `tf`: from the latch and the rest of the program state to what it leaves of
them. -/
abbrev TaskFn (σ : Type) := CompletionEvent → σ → CompletionEvent × σ

/-- What happened on the core, in order. -/
inductive TaskStep
  | enroll
  | spawn
  | tf
  | complete (evs : List Event)
deriving DecidableEq, Repr

/-- One core with a latch `*ce`: the latch, the rest of the program state, the private
tasks spawned and not yet run (each the closure `[ce, tf]`, given by its `tf`), and the
steps taken so far. -/
structure TaskWorld (σ : Type) where
  latch : CompletionEvent
  state : σ
  spawned : List (TaskFn σ)
  trace : List TaskStep

/-- Modelled from the spec: `privateTask(closure)` of `Tasking.hpp`, which is not among the
sources: a task for the closure is spawned on this core; it runs when the scheduler picks
it, not inside the call. -/
def spawn_private {σ : Type} (w : TaskWorld σ) (tf : TaskFn σ) : TaskWorld σ :=
  { w with spawned := w.spawned ++ [tf], trace := w.trace ++ [TaskStep.spawn] }

/-- `privateTask(ce, tf)`: `ce->enroll();` then the spawn of `[ce, tf] { tf(); ce->complete(); }`. -/
def privateTask {σ : Type} (w : TaskWorld σ) (tf : TaskFn σ) : TaskWorld σ :=
  let w1 : TaskWorld σ :=
    { w with latch := (w.latch.enroll 1).1, trace := w.trace ++ [TaskStep.enroll] }
  spawn_private w1 tf

/-- The body of the spawned closure: `tf(); ce->complete();`. -/
def TaskWorld.body {σ : Type} (w : TaskWorld σ) (tf : TaskFn σ) : TaskWorld σ :=
  let r := tf w.latch w.state
  let c := r.1.complete
  { w with latch := c.1, state := r.2, trace := w.trace ++ [TaskStep.tf, TaskStep.complete c.2] }

/-- The scheduler runs the spawned task number `i` to its end. -/
def TaskWorld.runSpawned {σ : Type} (w : TaskWorld σ) (i : Nat) : TaskWorld σ :=
  match w.spawned[i]? with
  | none => w
  | some tf => TaskWorld.body { w with spawned := w.spawned.eraseIdx i } tf

/-- A cluster used in the examples: every latch has the count 1 and the task 7 waiting on
it; nothing happened yet and nothing is in flight. -/
def LatchWorld.example : LatchWorld :=
  { latches := fun _ _ => { cv := { waiters := [7] }, count := 1 }
    events := fun _ => []
    sent := [] }

/-! ## Counting on the latch -/

/-- The sum of the increments enrolled in a sequence of calls. -/
def enrolled : List Op → Int
  | [] => 0
  | Op.enroll inc :: ops => inc + enrolled ops
  | _ :: ops => enrolled ops

/-! ## Facts about 64-bit arithmetic -/

theorem wrap64_of_inInt64 {x : Int} (h : inInt64 x) : wrap64 x = x := by
  unfold inInt64 at h
  unfold wrap64
  omega

theorem wrap64_add_wrap64 (a b : Int) : wrap64 (wrap64 a + b) = wrap64 (a + b) := by
  unfold wrap64
  omega

/-! ## Delegate fetch-and-add -/

/-- C1: for every long value `v` stored at the target address and every increment whose
sum with `v` does not overflow, one invocation of `delegate_fetch_add` writes `v` into
`out.before_val` and leaves `v + inc` stored at the address (a following read returns it);
no other `long` of the core changes. -/
theorem delegate_fetch_add_spec (mem : LongMem) (args : delegate_fetch_add_args)
    (out : delegate_fetch_add_out) (v : Int)
    (hv : mem (pointer args.addr) = v) (hno : inInt64 (v + args.increment)) :
    (delegate_fetch_add mem args out).2.before_val = v ∧
    read_long (delegate_fetch_add mem args out).1 (pointer args.addr) = v + args.increment ∧
    ∀ q, q ≠ pointer args.addr → (delegate_fetch_add mem args out).1 q = mem q := by
  subst hv
  refine ⟨rfl, ?_, ?_⟩
  · simp [delegate_fetch_add, read_long, wrap64_of_inInt64 hno]
  · intro q hq
    simp [delegate_fetch_add, Function.update_noteq hq]

/-- Scenario B: with the counter at 10 on core 1, fetch-add of 5 returns 10 and a following
read of the address returns 15. -/
theorem delegate_fetch_add_spec_witness :
    (delegate_fetch_add (fun _ => 10) ⟨globalize 64 1, 5⟩ ⟨0⟩).2.before_val = 10 ∧
    read_long (delegate_fetch_add (fun _ => 10) ⟨globalize 64 1, 5⟩ ⟨0⟩).1
      (pointer (globalize 64 1)) = 15 :=
  have h := delegate_fetch_add_spec (fun _ => 10) ⟨globalize 64 1, 5⟩ ⟨0⟩ 10 rfl (by decide)
  ⟨h.1, h.2.1⟩

theorem wrap64_inInt64 (x : Int) : inInt64 (wrap64 x) := by
  unfold inInt64 wrap64
  omega

theorem serve_incRequests_final (addr : GlobalPtr) (origins : List Core) :
    ∀ mem : LongMem, inInt64 (mem (pointer addr)) →
      (serve mem (incRequests addr origins)).1 (pointer addr)
        = wrap64 (mem (pointer addr) + origins.length) := by
  induction origins with
  | nil =>
    intro mem h
    simp [incRequests, serve, wrap64_of_inInt64 h]
  | cons o os ih =>
    intro mem _
    have hstep := ih (delegate_fetch_add mem ⟨addr, 1⟩ ⟨0⟩).1
      (by simp [delegate_fetch_add, wrap64_inInt64])
    simp only [incRequests, List.map_cons, serve] at hstep ⊢
    rw [hstep]
    simp only [delegate_fetch_add, Function.update_same, List.length_cons, Nat.cast_succ]
    rw [wrap64_add_wrap64]
    congr 1
    ring

theorem serve_incRequests_befores (addr : GlobalPtr) (origins : List Core) :
    ∀ (mem : LongMem) (v : Int), mem (pointer addr) = v → -9223372036854775808 ≤ v →
      v + origins.length ≤ 9223372036854775807 →
      befores (serve mem (incRequests addr origins)).2
        = (List.range origins.length).map (fun i : Nat => v + (i : Int)) := by
  induction origins with
  | nil =>
    intro mem v _ _ _
    simp [incRequests, serve, befores]
  | cons o os ih =>
    intro mem v hv hlo hhi
    simp only [List.length_cons, Nat.cast_succ] at hhi
    have hin : inInt64 (v + 1) := by
      unfold inInt64
      omega
    have hstep := ih (delegate_fetch_add mem ⟨addr, 1⟩ ⟨0⟩).1 (v + 1)
      (by simp [delegate_fetch_add, hv, wrap64_of_inInt64 hin]) (by omega) (by omega)
    simp only [incRequests, befores, List.map_cons, serve] at hstep ⊢
    rw [hstep, List.length_cons, List.range_succ_eq_map, List.map_cons, List.map_map]
    refine congrArg₂ List.cons ?_ ?_
    · simp [delegate_fetch_add, hv]
    · apply List.map_congr_left
      intro i _
      simp only [Function.comp, Nat.cast_succ]
      ring

/-- C2 (amended): for every `N` up to 2^63 - 1, starting from a stored value 0, `N`
fetch-and-add calls with increment 1 on the same address, served one handler invocation at
a time in any arrival order, each return a distinct before-value, the multiset of returned
values is `{0, ..., N-1}` and the final stored value is `N`. -/
theorem fetch_add_atomic (N : Nat) (hN : N ≤ 9223372036854775807) : FetchAddAtomic N := by
  intro mem addr origins h0 hlen
  have hb := serve_incRequests_befores addr origins mem 0 h0 (by omega) (by omega)
  have hf := serve_incRequests_final addr origins mem (by rw [h0]; decide)
  rw [hlen] at hb hf
  have hb2 : befores (serve mem (incRequests addr origins)).2
      = (List.range N).map (fun i : Nat => (i : Int)) := by
    rw [hb]
    apply List.map_congr_left
    intro i _
    simp
  refine ⟨?_, ?_, ?_⟩
  · rw [hb2]
    exact (List.nodup_range N).map Nat.cast_injective
  · rw [hb2]
    rfl
  · rw [read_long, hf, h0, Int.zero_add]
    apply wrap64_of_inInt64
    unfold inInt64
    omega

/-- Three calls arriving from the cores 2, 0 and 1 return 0, 1 and 2 and leave 3. -/
theorem fetch_add_atomic_witness :
    befores (serve (fun _ => 0) (incRequests (globalize 64 1) [2, 0, 1])).2 = [0, 1, 2] ∧
    read_long (serve (fun _ => 0) (incRequests (globalize 64 1) [2, 0, 1])).1
      (pointer (globalize 64 1)) = 3 ∧
    FetchAddAtomic 3 :=
  ⟨by decide, (fetch_add_atomic 3 (by decide) (fun _ => 0) (globalize 64 1) [2, 0, 1] rfl rfl).2.2,
    fetch_add_atomic 3 (by decide)⟩

/-- C2 (as stated, refuted): with `N` = 2^63 the last call overflows the `long` counter;
the stored value ends at -2^63, not at `N`. -/
theorem fetch_add_atomic_overflow : ¬ FetchAddAtomic 9223372036854775808 := by
  intro h
  have h3 := (h (fun _ => 0) (globalize 64 1) (List.replicate 9223372036854775808 0) rfl
    (List.length_replicate _ _)).2.2
  rw [read_long, serve_incRequests_final _ _ _ (by decide), List.length_replicate] at h3
  revert h3
  unfold wrap64
  omega

/-! ## The completion latch -/

theorem complete_of_one_lt (ce : CompletionEvent) (h1 : 1 < ce.count)
    (h2 : ce.count ≤ 9223372036854775807) :
    ce.complete = ({ cv := ce.cv, count := ce.count - 1 }, []) := by
  have hw : wrap64 (ce.count - 1) = ce.count - 1 :=
    wrap64_of_inInt64 (by unfold inInt64; omega)
  have hne : ce.count ≠ 0 := by omega
  have hne1 : ce.count - 1 ≠ 0 := by omega
  simp [CompletionEvent.complete, hw, hne, hne1]

theorem complete_of_one (ce : CompletionEvent) (h1 : ce.count = 1) :
    ce.complete = ({ cv := { waiters := [] }, count := 0 }, [Event.broadcast ce.cv.waiters]) := by
  have hw : wrap64 0 = 0 := by decide
  simp [CompletionEvent.complete, hw, h1, broadcast]

theorem run_append (a b : List Op) : ∀ ce : CompletionEvent,
    ce.run (a ++ b) = ce.run a ++ (ce.after a).run b := by
  induction a with
  | nil => intro ce; rfl
  | cons op ops ih =>
    intro ce
    simp [CompletionEvent.run, CompletionEvent.after, ih]

theorem broadcasts_eq_zero (tr : List (CompletionEvent × List Event))
    (h : ∀ r ∈ tr, hasBroadcast r.2 = false) : broadcasts tr = 0 := by
  induction tr with
  | nil => rfl
  | cons r rs ih =>
    have hr := h r (List.mem_cons_self _ _)
    have hrs := ih fun x hx => h x (List.mem_cons_of_mem _ hx)
    unfold broadcasts at hrs ⊢
    simp only [List.map_cons, List.sum_cons, hrs, Nat.add_zero, List.countP_eq_zero]
    intro e he
    simp only [hasBroadcast, List.any_eq_false] at hr
    exact hr e he

theorem run_below_count (pre : List Op) : ∀ ce : CompletionEvent,
    (∀ o ∈ pre, o.isEnroll = false) → (completions pre : Int) < ce.count →
    ce.count ≤ 9223372036854775807 →
    (∀ r ∈ ce.run pre, hasBroadcast r.2 = false) ∧
    (ce.after pre).count = ce.count - completions pre ∧
    (ce.after pre).cv.waiters = ce.cv.waiters ++ waitCalls pre := by
  induction pre with
  | nil =>
    intro ce _ _ _
    simp [CompletionEvent.run, CompletionEvent.after, completions, waitCalls]
  | cons op ops ih =>
    intro ce hpre hlt hmax
    have hops : ∀ o ∈ ops, o.isEnroll = false := fun o ho => hpre o (List.mem_cons_of_mem _ ho)
    cases op with
    | enroll inc =>
      have := hpre (Op.enroll inc) (List.mem_cons_self _ _)
      simp [Op.isEnroll] at this
    | complete =>
      have hc : completions (Op.complete :: ops) = completions ops + 1 := by
        simp [completions]
      rw [hc] at hlt
      push_cast at hlt
      have hstep := complete_of_one_lt ce (by omega) hmax
      have h := ih { cv := ce.cv, count := ce.count - 1 } hops (by simp; omega) (by simp; omega)
      simp only [CompletionEvent.run, CompletionEvent.after, CompletionEvent.step, hstep,
        List.mem_cons, forall_eq_or_imp, waitCalls, hc]
      refine ⟨⟨by simp [hasBroadcast], h.1⟩, ?_, h.2.2⟩
      rw [h.2.1]
      push_cast
      ring
    | wait t =>
      have hc : completions (Op.wait t :: ops) = completions ops := by
        simp [completions]
      rw [hc] at hlt
      have hpos : ce.count > 0 := by omega
      have hstep : ce.wait t = ({ cv := { waiters := ce.cv.waiters ++ [t] }, count := ce.count },
          [Event.suspend t]) := by
        simp [CompletionEvent.wait, hpos, Grappa.wait]
      have h := ih { cv := { waiters := ce.cv.waiters ++ [t] }, count := ce.count } hops hlt hmax
      simp only [CompletionEvent.run, CompletionEvent.after, CompletionEvent.step, hstep,
        List.mem_cons, forall_eq_or_imp, waitCalls, hc]
      refine ⟨⟨by simp [hasBroadcast, Event.isBroadcast], h.1⟩, h.2.1, ?_⟩
      rw [h.2.2]
      simp

/-- C3: on a latch whose count is 0, `enroll(k)` followed by exactly `k` calls to
`complete()` (with any `wait()` calls in between) broadcasts exactly once: none of the first
`k - 1` completions broadcasts, the `k`-th one broadcasts to every task waiting by then, and
the count ends at 0. -/
theorem enroll_then_completions (ce : CompletionEvent) (k : Nat) (pre : List Op)
    (h0 : ce.count = 0) (hk : k ≤ 9223372036854775807)
    (hpre : ∀ o ∈ pre, o.isEnroll = false) (hc : completions pre + 1 = k) :
    (∀ r ∈ (ce.enroll k).1.run pre, hasBroadcast r.2 = false) ∧
    ((ce.enroll k).1.after pre).complete.2
      = [Event.broadcast (ce.cv.waiters ++ waitCalls pre)] ∧
    ((ce.enroll k).1.after pre).complete.1.count = 0 ∧
    ((ce.enroll k).1.after pre).complete.1.cv.waiters = [] ∧
    broadcasts ((ce.enroll k).1.run (pre ++ [Op.complete])) = 1 := by
  have hen : (ce.enroll k).1 = { cv := ce.cv, count := (k : Int) } := by
    have hw : wrap64 (k : Int) = k := wrap64_of_inInt64 (by unfold inInt64; omega)
    simp [CompletionEvent.enroll, h0, hw]
  rw [hen]
  have h := run_below_count pre { cv := ce.cv, count := (k : Int) } hpre
    (by simp only; omega) (by simp only; omega)
  have hone : (CompletionEvent.after { cv := ce.cv, count := (k : Int) } pre).count = 1 := by
    rw [h.2.1]
    simp only
    omega
  have hlast := complete_of_one _ hone
  refine ⟨h.1, ?_, ?_, ?_, ?_⟩
  · rw [hlast, h.2.2]
  · rw [hlast]
  · rw [hlast]
  · rw [run_append]
    unfold broadcasts
    have hz := broadcasts_eq_zero _ h.1
    unfold broadcasts at hz
    simp [CompletionEvent.run, CompletionEvent.step, hlast, hz, Event.isBroadcast]

/-- Scenario C: after `enroll(3)`, task 7 waits before the first completion and task 8
between the first and the second; neither is released by the first or the second
completion, both by the third. -/
theorem enroll_then_completions_witness :
    (∀ r ∈ ((CompletionEvent.new 0).enroll 3).1.run
        [Op.wait 7, Op.complete, Op.wait 8, Op.complete], hasBroadcast r.2 = false) ∧
    (((CompletionEvent.new 0).enroll 3).1.after
        [Op.wait 7, Op.complete, Op.wait 8, Op.complete]).complete.2
      = [Event.broadcast [7, 8]] ∧
    (((CompletionEvent.new 0).enroll 3).1.after
        [Op.wait 7, Op.complete, Op.wait 8, Op.complete]).complete.1.count = 0 :=
  have h := enroll_then_completions (CompletionEvent.new 0) 3
    [Op.wait 7, Op.complete, Op.wait 8, Op.complete] rfl (by decide) (by decide) (by decide)
  ⟨h.1, h.2.1, h.2.2.1⟩

theorem step_broadcast_count (ce : CompletionEvent) (op : Op) (ws : List Task)
    (h : Event.broadcast ws ∈ (ce.step op).2) : (ce.step op).1.count = 0 := by
  cases op with
  | enroll inc => simp [CompletionEvent.step, CompletionEvent.enroll] at h
  | complete =>
    by_cases hz : wrap64 (ce.count - 1) = 0
    · simp [CompletionEvent.step, CompletionEvent.complete, hz]
    · simp only [CompletionEvent.step, CompletionEvent.complete, if_neg hz] at h
      split at h <;> simp at h
  | wait t =>
    by_cases hp : ce.count > 0 <;>
      simp [CompletionEvent.step, CompletionEvent.wait, Grappa.wait, hp] at h

theorem run_broadcast_count (ops : List Op) : ∀ ce : CompletionEvent,
    ∀ r ∈ ce.run ops, ∀ ws, Event.broadcast ws ∈ r.2 → r.1.count = 0 := by
  induction ops with
  | nil =>
    intro ce r hr
    simp [CompletionEvent.run] at hr
  | cons op ops ih =>
    intro ce r hr ws hws
    simp only [CompletionEvent.run, List.mem_cons] at hr
    rcases hr with hr | hr
    · subst hr
      exact step_broadcast_count ce op ws hws
    · exact ih _ r hr ws hws

/-- C4: `wait()` never returns earlier than the count reaching zero: a `wait()` called while
the count is positive suspends the caller and changes nothing else, and in every sequence of
calls that follows, a call that broadcasts (and so wakes the suspended task) leaves the count
at exactly 0. -/
theorem wait_woken_only_at_zero (ce : CompletionEvent) (t : Task) (ops : List Op)
    (h : 0 < ce.count) :
    (ce.wait t).2 = [Event.suspend t] ∧
    t ∈ (ce.wait t).1.cv.waiters ∧
    (ce.wait t).1.count = ce.count ∧
    ∀ r ∈ (ce.wait t).1.run ops, ∀ ws, Event.broadcast ws ∈ r.2 → r.1.count = 0 := by
  refine ⟨?_, ?_, ?_, run_broadcast_count ops _⟩ <;>
    simp [CompletionEvent.wait, Grappa.wait, h]

/-- With two enrolled, task 7 waits; the first completion does not wake it, the second one,
which leaves the count at 0, does. -/
theorem wait_woken_only_at_zero_witness :
    (((CompletionEvent.new 2).wait 7).1.run [Op.complete, Op.complete]).map
        (fun r => (r.1.count, r.2))
      = [(1, []), (0, [Event.broadcast [7]])] ∧
    ∀ r ∈ ((CompletionEvent.new 2).wait 7).1.run [Op.complete, Op.complete],
      ∀ ws, Event.broadcast ws ∈ r.2 → r.1.count = 0 :=
  ⟨by decide,
    (wait_woken_only_at_zero (CompletionEvent.new 2) 7 [Op.complete, Op.complete]
      (by decide)).2.2.2⟩

/-- C5 (the code at the failing input): with task 7 suspended on a latch whose count is 2,
`enroll(-2)` takes the count to 0 and does not broadcast; the task stays suspended, against
the class comment "All waiting tasks will be woken as soon as the count goes to 0". -/
theorem enroll_to_zero_no_broadcast :
    (CompletionEvent.mk ⟨[7]⟩ 2).cv.waiters ≠ [] ∧
    (CompletionEvent.mk ⟨[7]⟩ 2).count ≠ 0 ∧
    ((CompletionEvent.mk ⟨[7]⟩ 2).step (Op.enroll (-2))).1.count = 0 ∧
    hasBroadcast ((CompletionEvent.mk ⟨[7]⟩ 2).step (Op.enroll (-2))).2 = false ∧
    ((CompletionEvent.mk ⟨[7]⟩ 2).step (Op.enroll (-2))).1.cv.waiters = [7] := by
  decide

/-- The two paths to a count of 0 side by side: for every latch state a `complete()` that
changes the count from a non-zero value to 0 broadcasts to all the waiters and leaves none
suspended, while `enroll` has no wake-up, whatever count it produces. -/
theorem complete_to_zero_broadcasts (ce : CompletionEvent)
    (hnz : ce.count ≠ 0) (hz : ce.complete.1.count = 0) :
    ce.complete.2 = [Event.broadcast ce.cv.waiters] ∧
    ce.complete.1.cv.waiters = [] ∧
    ∀ inc, (ce.enroll inc).2 = [] ∧ (ce.enroll inc).1.cv = ce.cv := by
  have hz0 : wrap64 (ce.count - 1) = 0 := by
    by_cases hc : wrap64 (ce.count - 1) = 0
    · exact hc
    · simp [CompletionEvent.complete, hc] at hz
  refine ⟨?_, ?_, fun inc => ⟨rfl, rfl⟩⟩ <;>
    simp [CompletionEvent.complete, hz0, hnz, broadcast]

/-- With the tasks 7 and 8 suspended on a latch whose count is 1, `complete()` wakes both. -/
theorem complete_to_zero_broadcasts_witness :
    (CompletionEvent.mk ⟨[7, 8]⟩ 1).complete.2 = [Event.broadcast [7, 8]] ∧
    (CompletionEvent.mk ⟨[7, 8]⟩ 1).complete.1.cv.waiters = [] :=
  have h := complete_to_zero_broadcasts (CompletionEvent.mk ⟨[7, 8]⟩ 1) (by decide) (by decide)
  ⟨h.1, h.2.1⟩

/-- C6: `complete()` on a latch whose count is already 0 logs an error, does not abort, does
not broadcast and leaves the count at -1; the waiting tasks are unaffected. -/
theorem complete_at_zero (ce : CompletionEvent) (h : ce.count = 0) :
    ce.complete.2 = [Event.log Severity.ERROR "too many calls to signal()"] ∧
    aborts ce.complete.2 = false ∧
    hasBroadcast ce.complete.2 = false ∧
    ce.complete.1.count = -1 ∧
    ce.complete.1.cv = ce.cv := by
  have hw : wrap64 (-1) = -1 := by decide
  have hne : (-1 : Int) ≠ 0 := by decide
  simp [CompletionEvent.complete, h, hw, hne, aborts, hasBroadcast, Event.isBroadcast]

/-- The over-signal on a fresh latch. -/
theorem complete_at_zero_witness :
    (CompletionEvent.new 0).complete
      = ({ cv := { waiters := [] }, count := -1 },
         [Event.log Severity.ERROR "too many calls to signal()"]) ∧
    aborts (CompletionEvent.new 0).complete.2 = false :=
  have h := complete_at_zero (CompletionEvent.new 0) rfl
  ⟨by decide, h.2.1⟩

/-! ## Byte memory -/

theorem length_readBytes (m : Mem) (n : Nat) : ∀ p, (readBytes m p n).length = n := by
  induction n with
  | zero => intro p; rfl
  | succ n ih => intro p; simp [readBytes, ih]

theorem writeBytes_outside (bs : List Byte) : ∀ (m : Mem) (p a : Nat),
    (a < p ∨ p + bs.length ≤ a) → writeBytes m p bs a = m a := by
  induction bs with
  | nil => intro m p a _; rfl
  | cons b bs ih =>
    intro m p a h
    simp only [List.length_cons] at h
    have h1 : a < p + 1 ∨ p + 1 + bs.length ≤ a := by omega
    have h2 : a ≠ p := by omega
    rw [writeBytes, ih _ _ _ h1, Function.update_noteq h2]

theorem readBytes_writeBytes (bs : List Byte) : ∀ (m : Mem) (p : Nat),
    readBytes (writeBytes m p bs) p bs.length = bs := by
  induction bs with
  | nil => intro m p; rfl
  | cons b bs ih =>
    intro m p
    simp only [List.length_cons, readBytes, writeBytes]
    have h1 : p < p + 1 ∨ p + 1 + bs.length ≤ p := by omega
    rw [ih, writeBytes_outside _ _ _ _ h1, Function.update_same]

theorem directCopy_memcpy (m : Mem) (dst src : Addr) (n : Nat) :
    DirectCopy m (memcpy m dst src n) dst src n := by
  constructor
  · have h := readBytes_writeBytes (readBytes m src n) m dst
    rwa [length_readBytes] at h
  · intro a ha
    exact writeBytes_outside _ _ _ _ (by rwa [length_readBytes])

/-! ## Remote memory access and remote execution -/

/-- C7: when the owning core of the global address is the current core, `grappa_get` and
`grappa_put` return without suspending, ship no message and leave the memory of the core
as a direct copy of `sz` bytes would: the first `sz` bytes of the destination are the
first `sz` bytes of the source, every other byte of the core and the memory of every
other core are unchanged. -/
theorem get_put_local (w : World) (c : Core) (self : Task) (result : Addr)
    (g : GlobalPtr) (buf : Addr) (sz : Nat) (h : core g = c) :
    ((grappa_get w c self result buf g sz).2 = Status.returned ∧
      NoTraffic w (grappa_get w c self result buf g sz).1 ∧
      DirectCopy (w.mem c) ((grappa_get w c self result buf g sz).1.mem c) buf (pointer g) sz ∧
      ∀ c1, c1 ≠ c → (grappa_get w c self result buf g sz).1.mem c1 = w.mem c1) ∧
    ((grappa_put w c self result g buf sz).2 = Status.returned ∧
      NoTraffic w (grappa_put w c self result g buf sz).1 ∧
      DirectCopy (w.mem c) ((grappa_put w c self result g buf sz).1.mem c) (pointer g) buf sz ∧
      ∀ c1, c1 ≠ c → (grappa_put w c self result g buf sz).1.mem c1 = w.mem c1) := by
  have hg : (gaddr g).core = c := h
  constructor
  · simp only [grappa_get, hg, if_true, World.setMem, Function.update_same]
    exact ⟨trivial, ⟨rfl, rfl, rfl, rfl, rfl⟩, directCopy_memcpy _ _ _ _,
      fun c1 hc => Function.update_noteq hc _ _⟩
  · simp only [grappa_put, h, if_true, World.setMem, Function.update_same]
    exact ⟨trivial, ⟨rfl, rfl, rfl, rfl, rfl⟩, directCopy_memcpy _ _ _ _,
      fun c1 hc => Function.update_noteq hc _ _⟩

/-- On core 0 a local get of the 4 bytes at address 100 into the buffer at 16, and a local
put of the 4 bytes of the buffer at 16 to address 100. -/
theorem get_put_local_witness :
    readBytes ((grappa_get World.example 0 1 900 16 (globalize 100 0) 4).1.mem 0) 16 4
      = [100, 101, 102, 103] ∧
    readBytes ((grappa_put World.example 0 1 900 (globalize 100 0) 16 4).1.mem 0) 100 4
      = [16, 17, 18, 19] ∧
    (grappa_get World.example 0 1 900 16 (globalize 100 0) 4).1.net = [] :=
  have h := get_put_local World.example 0 1 900 (globalize 100 0) 16 4 rfl
  ⟨h.1.2.2.1.1, h.2.2.2.1.1, h.1.2.1.1⟩

theorem deliver_last (w : World) (net0 : List (Core × Message)) (c : Core) (m : Message)
    (h : w.net = net0 ++ [(c, m)]) :
    deliver w net0.length = handle { w with net := net0 } c m := by
  have h1 : w.net[net0.length]? = some (c, m) := by rw [h]; simp
  have h2 : w.net.eraseIdx net0.length = net0 := by
    rw [h, List.eraseIdx_append_of_length_le (Nat.le_refl _)]
    simp
  simp only [deliver, h1, h2]

theorem grappa_get_remote (w : World) (origin : Core) (self : Task) (result : Addr)
    (addr : Addr) (src : GlobalPtr) (sz : Nat) (h : core src ≠ origin) :
    grappa_get w origin self result addr src sz =
      ({ w with
          cells := Function.update w.cells origin (Function.update (w.cells origin) result
            { state := FEState.EMPTY, t_ := addr, waiters := [self] })
          net := w.net ++ [(core src,
            Message.get_request (gaddr src) sz (make_global result origin))] },
        Status.suspended) := by
  have hg : ¬ (gaddr src).core = origin := h
  simp [grappa_get, hg, FullEmpty.readFF, FullEmpty.reset, FullEmpty.init, World.setCell,
    send_heap_message, core]

theorem get_remote_request (w : World) (origin : Core) (self : Task) (result : Addr)
    (addr : Addr) (src : GlobalPtr) (sz : Nat) (m1 : Mem) (h : core src ≠ origin) :
    deliver ((grappa_get w origin self result addr src sz).1.setMem (core src) m1) w.net.length
      = { w with
          mem := Function.update w.mem (core src) m1
          cells := Function.update w.cells origin (Function.update (w.cells origin) result
            { state := FEState.EMPTY, t_ := addr, waiters := [self] })
          net := w.net ++ [(origin, Message.get_reply (make_global result origin)
            (readBytes m1 (pointer src) sz))] } := by
  have hw1 : (grappa_get w origin self result addr src sz).1 = _ :=
    congrArg Prod.fst (grappa_get_remote w origin self result addr src sz h)
  rw [deliver_last _ w.net (core src)
    (Message.get_request (gaddr src) sz (make_global result origin)) (by rw [hw1]; rfl), hw1]
  simp [handle, send_heap_message, World.setMem, make_global, pointer, core]

theorem get_remote_reply (w : World) (origin : Core) (self : Task) (result : Addr)
    (addr : Addr) (src : GlobalPtr) (sz : Nat) (m1 m2 : Mem) (h : core src ≠ origin) :
    deliver ((deliver ((grappa_get w origin self result addr src sz).1.setMem (core src) m1)
        w.net.length).setMem (core src) m2) w.net.length
      = { w with
          mem := Function.update (Function.update w.mem (core src) m2) origin
            (writeBytes (w.mem origin) addr (readBytes m1 (pointer src) sz))
          cells := Function.update w.cells origin (Function.update (w.cells origin) result
            { state := FEState.FULL, t_ := addr, waiters := [] })
          ready := w.ready ++ [(origin, self)] } := by
  have hne : origin ≠ core src := fun e => h e.symm
  have hw2 := get_remote_request w origin self result addr src sz m1 h
  rw [deliver_last _ w.net origin (Message.get_reply (make_global result origin)
    (readBytes m1 (pointer src) sz)) (by rw [hw2]; rfl), hw2]
  simp [handle, World.setMem, World.setCell, World.wake, make_global, FullEmpty.readXX,
    FullEmpty.writeEF, Function.update_noteq hne]

/-- C9: the slow path of `grappa_get`. The caller ships one request and suspends on its
Empty cell; whatever the owning core's memory is when the request handler runs there (`m1`)
and whatever it becomes afterwards (`m2`), the cell is still Empty after the request handler,
and the reply handler stores into `addr` exactly the `sz` bytes `m1` held at the source,
marks the cell Full and resumes the caller. -/
theorem get_remote (w : World) (origin : Core) (self : Task) (result : Addr) (addr : Addr)
    (src : GlobalPtr) (sz : Nat) (m1 m2 : Mem) (h : core src ≠ origin) :
    let w1 := (grappa_get w origin self result addr src sz).1
    let w2 := deliver (w1.setMem (core src) m1) w.net.length
    let w3 := deliver (w2.setMem (core src) m2) w.net.length
    (grappa_get w origin self result addr src sz).2 = Status.suspended ∧
    (w1.cells origin result).state = FEState.EMPTY ∧
    (w1.cells origin result).waiters = [self] ∧
    w1.net = w.net ++ [(core src, Message.get_request (gaddr src) sz (make_global result origin))] ∧
    w1.mem = w.mem ∧
    (w2.cells origin result).state = FEState.EMPTY ∧
    w2.ready = w.ready ∧
    w2.mem origin = w.mem origin ∧
    w2.net = w.net ++ [(origin, Message.get_reply (make_global result origin)
      (readBytes m1 (pointer src) sz))] ∧
    (w3.cells origin result).state = FEState.FULL ∧
    w3.ready = w.ready ++ [(origin, self)] ∧
    w3.net = w.net ∧
    w3.blocked = w.blocked ∧
    readBytes (w3.mem origin) addr sz = readBytes m1 (pointer src) sz ∧
    ∀ a, (a < addr ∨ addr + sz ≤ a) → w3.mem origin a = w.mem origin a := by
  intro w1 w2 w3
  have hne : origin ≠ core src := fun e => h e.symm
  have e1 := grappa_get_remote w origin self result addr src sz h
  have hw1 : w1 = _ := congrArg Prod.fst e1
  have hw2 : w2 = _ := get_remote_request w origin self result addr src sz m1 h
  have hw3 : w3 = _ := get_remote_reply w origin self result addr src sz m1 m2 h
  have hlen := length_readBytes m1 sz (pointer src)
  refine ⟨congrArg Prod.snd e1, ?_, ?_, ?_, ?_, ?_, ?_, ?_, ?_, ?_, ?_, ?_, ?_, ?_, ?_⟩
  · rw [hw1]; simp
  · rw [hw1]; simp
  · rw [hw1]
  · rw [hw1]
  · rw [hw2]; simp
  · rw [hw2]
  · rw [hw2]; simp [Function.update_noteq hne]
  · rw [hw2]
  · rw [hw3]; simp
  · rw [hw3]
  · rw [hw3]
  · rw [hw3]
  · rw [hw3]
    simp only [Function.update_same]
    have hrw := readBytes_writeBytes (readBytes m1 (pointer src) sz) (w.mem origin) addr
    rwa [hlen] at hrw
  · intro a ha
    rw [hw3]
    simp only [Function.update_same]
    exact writeBytes_outside _ _ _ _ (by rwa [hlen])

/-- Scenario A: core 1 holds the 8 bytes of `0x1122334455667788` at address 256; core 0
issues a get of those 8 bytes into its buffer at 16, which ends up holding exactly them. -/
theorem get_remote_witness :
    readBytes ((deliver ((deliver
        ((grappa_get World.example 0 1 900 16 (globalize 256 1) 8).1.setMem 1 scenarioA)
        0).setMem 1 scenarioA) 0).mem 0) 16 8
      = [0x88, 0x77, 0x66, 0x55, 0x44, 0x33, 0x22, 0x11] :=
  (get_remote World.example 0 1 900 16 (globalize 256 1) 8 scenarioA scenarioA
    (by decide)).2.2.2.2.2.2.2.2.2.2.2.2.2.1

theorem grappa_put_remote (w : World) (origin : Core) (self : Task) (result : Addr)
    (dest : GlobalPtr) (src : Addr) (sz : Nat) (h : core dest ≠ origin) :
    grappa_put w origin self result dest src sz =
      ({ w with
          flags := Function.update w.flags origin (Function.update (w.flags origin) result
            { state := FEState.EMPTY, t_ := false, waiters := [self] })
          net := w.net ++ [(core dest, Message.put_request dest sz (make_global result origin)
            (readBytes (w.mem origin) src sz))] },
        Status.suspended) := by
  simp [grappa_put, h, FullEmpty.readFF, FullEmpty.empty, World.setFlag, send_heap_message]

theorem put_remote_reply (w : World) (origin : Core) (self : Task) (result : Addr)
    (dest : GlobalPtr) (src : Addr) (sz : Nat) (h : core dest ≠ origin) :
    deliver (deliver (grappa_put w origin self result dest src sz).1 w.net.length) w.net.length
      = { w with
          mem := Function.update w.mem (core dest)
            (writeBytes (w.mem (core dest)) (pointer dest) (readBytes (w.mem origin) src sz))
          flags := Function.update w.flags origin (Function.update (w.flags origin) result
            { state := FEState.FULL, t_ := true, waiters := [] })
          ready := w.ready ++ [(origin, self)] } := by
  have hw1 : (grappa_put w origin self result dest src sz).1 = _ :=
    congrArg Prod.fst (grappa_put_remote w origin self result dest src sz h)
  have hlen := length_readBytes (w.mem origin) sz src
  have hw2 : deliver (grappa_put w origin self result dest src sz).1 w.net.length
      = { w with
          mem := Function.update w.mem (core dest)
            (writeBytes (w.mem (core dest)) (pointer dest) (readBytes (w.mem origin) src sz))
          flags := Function.update w.flags origin (Function.update (w.flags origin) result
            { state := FEState.EMPTY, t_ := false, waiters := [self] })
          net := w.net ++ [(origin, Message.put_reply (make_global result origin))] } := by
    rw [deliver_last _ w.net (core dest) (Message.put_request dest sz (make_global result origin)
      (readBytes (w.mem origin) src sz)) (by rw [hw1]), hw1]
    simp [handle, send_heap_message, World.setMem, make_global,
      List.take_of_length_le (Nat.le_of_eq hlen)]
  rw [deliver_last _ w.net origin (Message.put_reply (make_global result origin))
    (by rw [hw2]), hw2]
  simp [handle, World.setFlag, World.wake, make_global, FullEmpty.writeEF]

theorem setMem_self (w : World) (c : Core) : w.setMem c (w.mem c) = w := by
  simp [World.setMem]

theorem get_remote_quiet (w : World) (origin : Core) (self : Task) (result : Addr)
    (addr : Addr) (src : GlobalPtr) (sz : Nat) (h : core src ≠ origin) :
    deliver (deliver (grappa_get w origin self result addr src sz).1 w.net.length) w.net.length
      = { w with
          mem := Function.update w.mem origin
            (writeBytes (w.mem origin) addr (readBytes (w.mem (core src)) (pointer src) sz))
          cells := Function.update w.cells origin (Function.update (w.cells origin) result
            { state := FEState.FULL, t_ := addr, waiters := [] })
          ready := w.ready ++ [(origin, self)] } := by
  have h3 := get_remote_reply w origin self result addr src sz
    (w.mem (core src)) (w.mem (core src)) h
  have h2 := get_remote_request w origin self result addr src sz (w.mem (core src)) h
  have hw1 : (grappa_get w origin self result addr src sz).1 = _ :=
    congrArg Prod.fst (grappa_get_remote w origin self result addr src sz h)
  have e1 : (grappa_get w origin self result addr src sz).1.setMem (core src) (w.mem (core src))
      = (grappa_get w origin self result addr src sz).1 := by
    rw [hw1]; simp [World.setMem]
  rw [e1] at h2 h3
  have e2 : (deliver (grappa_get w origin self result addr src sz).1 w.net.length).setMem
      (core src) (w.mem (core src))
      = deliver (grappa_get w origin self result addr src sz).1 w.net.length := by
    rw [h2]; simp [World.setMem]
  rw [e2] at h3
  rw [h3]
  simp

/-- C8: for every payload size (1 to 4096 included) and every payload, with each shipped
closure delivered exactly once, `grappa_put(g, src, size)` followed by
`grappa_get(dst, g, size)`, both issued by a core that does not own `g`, suspends the caller
twice, resumes it twice and leaves in `dst` the bytes `src` held when the put was issued;
the owner holds the same bytes at the address. -/
theorem put_get_roundtrip (w : World) (origin : Core) (self : Task) (res1 res2 : Addr)
    (g : GlobalPtr) (src dst : Addr) (size : Nat) (h : core g ≠ origin) :
    let p := grappa_put w origin self res1 g src size
    let w3 := deliver (deliver p.1 w.net.length) w.net.length
    let q := grappa_get w3 origin self res2 dst g size
    let w6 := deliver (deliver q.1 w.net.length) w.net.length
    p.2 = Status.suspended ∧
    (w3.flags origin res1).state = FEState.FULL ∧
    w3.ready = w.ready ++ [(origin, self)] ∧
    w3.net = w.net ∧
    q.2 = Status.suspended ∧
    (w6.cells origin res2).state = FEState.FULL ∧
    w6.ready = w.ready ++ [(origin, self), (origin, self)] ∧
    w6.net = w.net ∧
    w6.blocked = w.blocked ∧
    readBytes (w6.mem (core g)) (pointer g) size = readBytes (w.mem origin) src size ∧
    readBytes (w6.mem origin) dst size = readBytes (w.mem origin) src size := by
  intro p w3 q w6
  have hne : origin ≠ core g := fun e => h e.symm
  have hp := grappa_put_remote w origin self res1 g src size h
  have hw3 : w3 = _ := put_remote_reply w origin self res1 g src size h
  have hnet : w3.net = w.net := by rw [hw3]
  have hq := grappa_get_remote w3 origin self res2 dst g size h
  have hl : w3.net.length = w.net.length := congrArg List.length hnet
  have hw6 : w6 = { w3 with
      mem := Function.update w3.mem origin
        (writeBytes (w3.mem origin) dst (readBytes (w3.mem (core g)) (pointer g) size))
      cells := Function.update w3.cells origin (Function.update (w3.cells origin) res2
        { state := FEState.FULL, t_ := dst, waiters := [] })
      ready := w3.ready ++ [(origin, self)] } := by
    have := get_remote_quiet w3 origin self res2 dst g size h
    rw [hl] at this
    exact this
  have hlen := length_readBytes (w.mem origin) size src
  have hown : readBytes (w3.mem (core g)) (pointer g) size = readBytes (w.mem origin) src size := by
    rw [hw3]
    simp only [Function.update_same]
    have hrw := readBytes_writeBytes (readBytes (w.mem origin) src size) (w.mem (core g)) (pointer g)
    rwa [hlen] at hrw
  refine ⟨congrArg Prod.snd hp, ?_, ?_, hnet, congrArg Prod.snd hq, ?_, ?_, ?_, ?_, ?_, ?_⟩
  · rw [hw3]; simp
  · rw [hw3]
  · rw [hw6]; simp
  · rw [hw6, hw3]; simp
  · rw [hw6, hw3]
  · rw [hw6, hw3]
  · rw [hw6]
    simp only [Function.update_noteq h]
    exact hown
  · rw [hw6]
    simp only [Function.update_same]
    rw [hown]
    have hrw := readBytes_writeBytes (readBytes (w.mem origin) src size) (w3.mem origin) dst
    rwa [hlen] at hrw

/-- Core 0 puts the 4 bytes of its buffer at 16 to address 256 of core 1 and gets them
back into its buffer at 32. -/
theorem put_get_roundtrip_witness :
    readBytes ((deliver (deliver (grappa_get
        (deliver (deliver (grappa_put World.example 0 1 900 (globalize 256 1) 16 4).1 0) 0)
        0 1 901 32 (globalize 256 1) 4).1 0) 0).mem 0) 32 4
      = [16, 17, 18, 19] :=
  (put_get_roundtrip World.example 0 1 900 901 (globalize 256 1) 16 32 4
    (by decide)).2.2.2.2.2.2.2.2.2.2

theorem grappa_on_remote (w : World) (origin : Core) (self : Task) (fe : Addr) (dst : Core)
    (fn : FlatFn) (args : Addr) (args_sz : Nat) (out : Addr) (out_sz : Nat) (h : dst ≠ origin) :
    grappa_on w origin self fe dst fn args args_sz out out_sz =
      ({ w with
          cells := Function.update w.cells origin (Function.update (w.cells origin) fe
            { state := FEState.EMPTY, t_ := out, waiters := [self] })
          net := w.net ++ [(dst, Message.on_request fn out_sz (make_global fe origin)
            (readBytes (w.mem origin) args args_sz))] },
        Status.suspended) := by
  simp [grappa_on, h, FullEmpty.readFF, FullEmpty.reset, FullEmpty.init, World.setCell,
    send_heap_message]

/-- The memory of the target core after the request handler of `grappa_on`: the shipped
bytes are in the payload buffer and `fn` has been called on that buffer and on the
handler's local array. -/
theorem on_remote_request (w : World) (origin : Core) (self : Task) (fe : Addr) (dst : Core)
    (fn : FlatFn) (args : Addr) (args_sz : Nat) (out : Addr) (out_sz : Nat) (h : dst ≠ origin) :
    deliver (grappa_on w origin self fe dst fn args args_sz out out_sz).1 w.net.length
      = { w with
          mem := Function.update w.mem dst
            (fn (writeBytes (w.mem dst) (w.payloadAt dst) (readBytes (w.mem origin) args args_sz))
              (w.payloadAt dst) (w.frameAt dst))
          cells := Function.update w.cells origin (Function.update (w.cells origin) fe
            { state := FEState.EMPTY, t_ := out, waiters := [self] })
          net := w.net ++ [(origin, Message.on_reply (make_global fe origin)
            (readBytes
              (fn (writeBytes (w.mem dst) (w.payloadAt dst)
                  (readBytes (w.mem origin) args args_sz))
                (w.payloadAt dst) (w.frameAt dst))
              (w.frameAt dst) out_sz))] } := by
  have hw1 : (grappa_on w origin self fe dst fn args args_sz out out_sz).1 = _ :=
    congrArg Prod.fst (grappa_on_remote w origin self fe dst fn args args_sz out out_sz h)
  rw [deliver_last _ w.net dst (Message.on_request fn out_sz (make_global fe origin)
    (readBytes (w.mem origin) args args_sz)) (by rw [hw1]), hw1]
  simp [handle, send_heap_message, World.setMem, make_global]

theorem on_remote_reply (w : World) (origin : Core) (self : Task) (fe : Addr) (dst : Core)
    (fn : FlatFn) (args : Addr) (args_sz : Nat) (out : Addr) (out_sz : Nat) (h : dst ≠ origin) :
    deliver (deliver (grappa_on w origin self fe dst fn args args_sz out out_sz).1 w.net.length)
        w.net.length
      = { w with
          mem := Function.update
            (Function.update w.mem dst
              (fn (writeBytes (w.mem dst) (w.payloadAt dst)
                  (readBytes (w.mem origin) args args_sz))
                (w.payloadAt dst) (w.frameAt dst)))
            origin (writeBytes (w.mem origin) out
              (readBytes
                (fn (writeBytes (w.mem dst) (w.payloadAt dst)
                    (readBytes (w.mem origin) args args_sz))
                  (w.payloadAt dst) (w.frameAt dst))
                (w.frameAt dst) out_sz))
          cells := Function.update w.cells origin (Function.update (w.cells origin) fe
            { state := FEState.FULL, t_ := out, waiters := [] })
          ready := w.ready ++ [(origin, self)] } := by
  have hne : origin ≠ dst := fun e => h e.symm
  have hw2 := on_remote_request w origin self fe dst fn args args_sz out out_sz h
  rw [deliver_last _ w.net origin (Message.on_reply (make_global fe origin) _)
    (by rw [hw2]), hw2]
  simp [handle, World.setMem, World.setCell, World.wake, make_global, FullEmpty.readXX,
    FullEmpty.writeEF, Function.update_noteq hne]

theorem swapFn_flat : Flat swapFn 2 2 (fun l => [l.getD 1 0, l.getD 0 0]) := by
  intro m a o hno
  have h1 : a ≠ o := by unfold NoOverlap at hno; omega
  have h2 : o ≠ o + 1 := by omega
  simp [swapFn, readBytes, Function.update_noteq h1, Function.update_noteq h2]

/-- C11: for every local pointer `p` and core `n` the conversions round-trip:
`core(globalize(p, n)) = n` and `pointer(globalize(p, n)) = p`; `globalize(p)` with the core
left out yields the current core as owner; `gaddr(gptr(ga)) = ga` for every global address
(and `gptr(gaddr(g)) = g` for every global pointer). The conversions are total functions:
none has an error path. -/
theorem addressing_roundtrip (p : Addr) (n mycore : Core) (ga : GlobalAddress) (g : GlobalPtr) :
    core (globalize p n) = n ∧
    pointer (globalize p n) = p ∧
    core (globalize_mycore mycore p) = mycore ∧
    pointer (globalize_mycore mycore p) = p ∧
    gaddr (gptr ga) = ga ∧
    gptr (gaddr g) = g := by
  refine ⟨rfl, rfl, rfl, rfl, ?_, ?_⟩
  · cases ga
    rfl
  · cases g
    rfl

/-! ## The growable buffer -/

/-- C12: `setWriteMode()` in WO mode and `setReadMode()` in RO mode abort; `setWriteMode()`
in RO mode yields WO and `setReadMode()` in WO mode yields RO; in every case the block, the
size and the length are the ones before the call (for an aborted call the whole object is);
a freshly constructed `BufferVector` is in WO mode. -/
theorem mode_transitions {T : Type} [Sized T] (bv : BufferVector T) (capacity : Nat) :
    (bv.mode = OpMode.WO →
      bv.setWriteMode = Checked.abort "already in WO mode" bv ∧
      bv.setReadMode = Checked.ok { bv with mode := OpMode.RO } ()) ∧
    (bv.mode = OpMode.RO →
      bv.setReadMode = Checked.abort "already in RO mode" bv ∧
      bv.setWriteMode = Checked.ok { bv with mode := OpMode.WO } ()) ∧
    (bv.setWriteMode.state.buf = bv.buf ∧ bv.setWriteMode.state.size = bv.size ∧
      bv.setWriteMode.state.getLength = bv.getLength) ∧
    (bv.setReadMode.state.buf = bv.buf ∧ bv.setReadMode.state.size = bv.size ∧
      bv.setReadMode.state.getLength = bv.getLength) ∧
    (BufferVector.new T capacity).mode = OpMode.WO ∧
    (BufferVector.new T).mode = OpMode.WO := by
  refine ⟨?_, ?_, ?_, ?_, rfl, rfl⟩
  · intro h
    simp [BufferVector.setWriteMode, BufferVector.setReadMode, h]
  · intro h
    simp [BufferVector.setWriteMode, BufferVector.setReadMode, h]
  · cases hm : bv.mode <;>
      simp [BufferVector.setWriteMode, Checked.state, BufferVector.getLength, hm]
  · cases hm : bv.mode <;>
      simp [BufferVector.setReadMode, Checked.state, BufferVector.getLength, hm]

/-- A fresh vector goes to RO and back to WO; a second `setReadMode()` in RO mode aborts,
and so does `setWriteMode()` on the fresh vector. -/
theorem mode_transitions_witness :
    (BufferVector.new Nat).setWriteMode.succeeds = false ∧
    (BufferVector.new Nat).setReadMode.succeeds = true ∧
    (BufferVector.new Nat).setReadMode.state.mode = OpMode.RO ∧
    (BufferVector.new Nat).setReadMode.state.setReadMode.succeeds = false ∧
    (BufferVector.new Nat).setReadMode.state.setWriteMode.state.mode = OpMode.WO :=
  have h1 := (mode_transitions (BufferVector.new Nat) 2).1 rfl
  have h2 := (mode_transitions (BufferVector.new Nat).setReadMode.state 2).2.1 (by decide)
  ⟨by rw [h1.1]; rfl, by rw [h1.2]; rfl, by rw [h1.2]; rfl, by rw [h2.1]; rfl,
    by rw [h2.2]; rfl⟩

theorem insert_of_WO {T : Type} [Sized T] (bv : BufferVector T) (v : T)
    (h : bv.mode = OpMode.WO) :
    bv.insert v = Checked.ok { bv.grow with
      buf := bv.grow.buf.store bv.grow.nextIndex v
      nextIndex := (bv.grow.nextIndex + 1) % 18446744073709551616 } () := by
  simp [BufferVector.insert, h]

theorem grow_nextIndex {T : Type} [Sized T] (bv : BufferVector T) :
    bv.grow.nextIndex = bv.nextIndex := by
  unfold BufferVector.grow
  split <;> rfl

theorem grow_mode {T : Type} [Sized T] (bv : BufferVector T) : bv.grow.mode = bv.mode := by
  unfold BufferVector.grow
  split <;> rfl

/-- C13: `insert(v)` returns if and only if the vector is in WO mode and
`getReadBuffer()` returns if and only if it is in RO mode; a rejected call aborts with the
object (stored elements, length, mode) as it was, and a `getReadBuffer()` that returns hands
out the block and changes nothing. -/
theorem mode_guards {T : Type} [Sized T] (bv : BufferVector T) (v : T) :
    ((bv.insert v).succeeds = true ↔ bv.mode = OpMode.WO) ∧
    (bv.getReadBuffer.succeeds = true ↔ bv.mode = OpMode.RO) ∧
    (bv.mode ≠ OpMode.WO → bv.insert v = Checked.abort "Must be in WO mode to insert" bv) ∧
    (bv.mode ≠ OpMode.RO →
      bv.getReadBuffer = Checked.abort "Must be in RO mode to see buffer" bv) ∧
    (bv.mode = OpMode.RO → bv.getReadBuffer = Checked.ok bv bv.buf) := by
  refine ⟨?_, ?_, ?_, ?_, ?_⟩
  · cases hm : bv.mode <;> simp [BufferVector.insert, Checked.succeeds, hm]
  · cases hm : bv.mode <;> simp [BufferVector.getReadBuffer, Checked.succeeds, hm]
  · intro h
    simp [BufferVector.insert, h]
  · intro h
    simp [BufferVector.getReadBuffer, h]
  · intro h
    simp [BufferVector.getReadBuffer, h]

/-- A fresh vector (WO) accepts an insert and rejects `getReadBuffer()`; once in RO mode it
rejects an insert, keeping its one element, and hands out the block. -/
theorem mode_guards_witness :
    ((BufferVector.new Nat).insert 7).succeeds = true ∧
    (BufferVector.new Nat).getReadBuffer.succeeds = false ∧
    (((BufferVector.new Nat).insert 7).state.setReadMode.state.insert 8).succeeds = false ∧
    (((BufferVector.new Nat).insert 7).state.setReadMode.state.insert 8).state.getLength = 1 ∧
    ((BufferVector.new Nat).insert 7).state.setReadMode.state.getReadBuffer.succeeds = true :=
  have h1 := mode_guards (BufferVector.new Nat) 7
  have h2 := mode_guards ((BufferVector.new Nat).insert 7).state.setReadMode.state 8
  ⟨h1.1.2 rfl, by rw [h1.2.2.2.1 (by decide)]; rfl, by rw [h2.2.2.1 (by decide)]; rfl,
    by rw [h2.2.2.1 (by decide)]; rfl, h2.2.1.2 (by decide)⟩

/-- C14 (the code at the failing input): a vector constructed with capacity 0 does not grow.
The first insert finds `nextIndex == size`, doubles the size 0 to 0 and stores its element
at index 0 of a block of no elements; the second insert stores at index 1, the size
still being 0. The block of the vector has 0 bytes throughout and holds neither index. -/
theorem insert_capacity_zero :
    ((BufferVector.new Nat 0).insert 7).succeeds = true ∧
    ((BufferVector.new Nat 0).insert 7).state.size = 0 ∧
    ((BufferVector.new Nat 0).insert 7).state.getLength = 1 ∧
    ((BufferVector.new Nat 0).insert 7).state.buf 0 = some 7 ∧
    ¬ (0 < ((BufferVector.new Nat 0).insert 7).state.size) ∧
    (((BufferVector.new Nat 0).insert 7).state.insert 8).state.size = 0 ∧
    (((BufferVector.new Nat 0).insert 7).state.insert 8).state.buf 1 = some 8 ∧
    ((BufferVector.new Nat 0).insert 7).state.buf.bytes = 0 ∧
    ¬ ((BufferVector.new Nat 0).insert 7).state.buf.holds 0 ∧
    (((BufferVector.new Nat 0).insert 7).state.insert 8).state.buf.bytes = 0 ∧
    ¬ (((BufferVector.new Nat 0).insert 7).state.insert 8).state.buf.holds 1 := by
  decide

theorem grow_full {T : Type} [Sized T] (bv : BufferVector T) (h : bv.nextIndex = bv.size)
    (hs : bv.size * Sized.sizeof T < 18446744073709551616)
    (hfit : 2 * bv.size * Sized.sizeof T < 18446744073709551616) :
    bv.grow.size = 2 * bv.size ∧
    bv.grow.buf.bytes = 2 * bv.size * Sized.sizeof T ∧
    ∀ i, i < bv.size → bv.grow.buf i = bv.buf i := by
  have hS : 0 < Sized.sizeof T := Sized.sizeof_pos
  have h1 : 2 * bv.size ≤ 2 * bv.size * Sized.sizeof T := Nat.le_mul_of_pos_right _ hS
  have e0 : bv.size * 2 = 2 * bv.size := Nat.mul_comm _ _
  have e1 : (2 * bv.size) % 18446744073709551616 = 2 * bv.size :=
    Nat.mod_eq_of_lt (by omega)
  have e2 : (2 * bv.size * Sized.sizeof T) % 18446744073709551616
      = 2 * bv.size * Sized.sizeof T := Nat.mod_eq_of_lt hfit
  have e3 : (bv.size * Sized.sizeof T) % 18446744073709551616 / Sized.sizeof T = bv.size := by
    rw [Nat.mod_eq_of_lt hs, Nat.mul_div_cancel _ hS]
  unfold BufferVector.grow
  rw [if_pos h]
  simp only [memcpyElems, allocate, e0, e1, e2, e3]
  refine ⟨trivial, trivial, ?_⟩
  intro i hi
  show (if i < bv.size then bv.buf.cells i else none) = bv.buf.cells i
  rw [if_pos hi]

theorem grow_room {T : Type} [Sized T] (bv : BufferVector T) (h : bv.nextIndex ≠ bv.size) :
    bv.grow = bv := by
  unfold BufferVector.grow
  rw [if_neg h]

theorem insert_step {T : Type} [Sized T] (c n : Nat) (bv : BufferVector T) (v : T)
    (hc : 1 ≤ c) (hinv : bv.Inv c n) (hm : bv.mode = OpMode.WO)
    (hfit : 2 * n * Sized.sizeof T < 18446744073709551616) :
    (bv.insert v).state.Inv c (n + 1) ∧
    n < (bv.insert v).state.size ∧
    (bv.insert v).state.buf.holds n ∧
    (bv.insert v).state.buf n = some v ∧
    (bv.insert v).state.mode = OpMode.WO ∧
    bv.size ≤ (bv.insert v).state.size ∧
    ∀ i, i < n → (bv.insert v).state.buf i = bv.buf i := by
  obtain ⟨hn, hle, ⟨k, hk⟩, hb, hs⟩ := hinv
  have hS : 0 < Sized.sizeof T := Sized.sizeof_pos
  have hpos : 1 ≤ bv.size := by
    rw [hk]
    exact Nat.mul_pos hc (Nat.pow_pos (by decide))
  have hsz : bv.size ≤ bv.size * Sized.sizeof T := Nat.le_mul_of_pos_right _ hS
  rw [insert_of_WO bv v hm]
  simp only [Checked.state, BufferVector.Inv, Block.holds, Block.store, grow_nextIndex, hn,
    grow_mode, hm, Function.update_same, true_and]
  by_cases he : bv.nextIndex = bv.size
  · have hns : n = bv.size := hn ▸ he
    rw [hns] at hfit
    obtain ⟨g1, g2, g3⟩ := grow_full bv he hs hfit
    have h1 : 2 * bv.size ≤ 2 * bv.size * Sized.sizeof T := Nat.le_mul_of_pos_right _ hS
    have hmod : (n + 1) % 18446744073709551616 = n + 1 := Nat.mod_eq_of_lt (by omega)
    have hmul : (n + 1) * Sized.sizeof T ≤ 2 * bv.size * Sized.sizeof T :=
      Nat.mul_le_mul_right _ (by omega)
    rw [g1, g2, hmod]
    refine ⟨⟨rfl, by omega, ⟨k + 1, ?_⟩, rfl, hfit⟩, by omega, hmul, by omega, ?_⟩
    · rw [hk, pow_succ]; ring
    · intro i hi
      have hne : i ≠ n := by omega
      show Function.update bv.grow.buf.cells n (some v) i = bv.buf.cells i
      rw [Function.update_noteq hne]
      exact g3 i (by omega)
  · rw [grow_room bv he]
    have hlt : n < bv.size := by omega
    have hmod : (n + 1) % 18446744073709551616 = n + 1 := Nat.mod_eq_of_lt (by omega)
    have hmul : (n + 1) * Sized.sizeof T ≤ bv.size * Sized.sizeof T :=
      Nat.mul_le_mul_right _ (by omega)
    rw [hmod]
    refine ⟨⟨rfl, by omega, ⟨k, hk⟩, hb, hs⟩, hlt, by rw [hb]; exact hmul, Nat.le_refl _, ?_⟩
    intro i hi
    have hne : i ≠ n := by omega
    show Function.update bv.buf.cells n (some v) i = bv.buf.cells i
    rw [Function.update_noteq hne]

theorem exec_Inv {T : Type} [Sized T] (c : Nat) (hc : 1 ≤ c) (ops : List (BVOp T)) :
    ∀ (bv s : BufferVector T) (n : Nat), bv.Inv c n →
      2 * (n + inserts ops) * Sized.sizeof T < 18446744073709551616 →
      bv.exec ops = some s → s.Inv c (n + inserts ops) := by
  induction ops with
  | nil =>
    intro bv s n hinv _ h
    simp only [BufferVector.exec, Option.some.injEq] at h
    subst h
    exact hinv
  | cons op ops ih =>
    intro bv s n hinv hfit h
    simp only [BufferVector.exec] at h
    cases op with
    | setWriteMode =>
      cases hm : bv.mode with
      | RO =>
        have e : bv.apply BVOp.setWriteMode = some { bv with mode := OpMode.WO } := by
          simp [BufferVector.apply, BufferVector.setWriteMode, hm]
        rw [e] at h
        exact ih { bv with mode := OpMode.WO } s n hinv hfit h
      | WO => simp [BufferVector.apply, BufferVector.setWriteMode, hm] at h
    | setReadMode =>
      cases hm : bv.mode with
      | RO => simp [BufferVector.apply, BufferVector.setReadMode, hm] at h
      | WO =>
        have e : bv.apply BVOp.setReadMode = some { bv with mode := OpMode.RO } := by
          simp [BufferVector.apply, BufferVector.setReadMode, hm]
        rw [e] at h
        exact ih { bv with mode := OpMode.RO } s n hinv hfit h
    | insert v =>
      cases hm : bv.mode with
      | RO => simp [BufferVector.apply, BufferVector.insert, hm] at h
      | WO =>
        have he : n + inserts (BVOp.insert v :: ops) = n + 1 + inserts ops := by
          simp only [inserts]; omega
        rw [he] at hfit ⊢
        have hle : 2 * n * Sized.sizeof T ≤ 2 * (n + 1 + inserts ops) * Sized.sizeof T :=
          Nat.mul_le_mul_right _ (by omega)
        have hstep := insert_step c n bv v hc hinv hm (by omega)
        rw [BufferVector.apply, insert_of_WO bv v hm] at h
        rw [insert_of_WO bv v hm] at hstep
        exact ih _ s (n + 1) hstep.1 hfit h
    | getReadBuffer =>
      cases hm : bv.mode with
      | RO =>
        have e : bv.apply BVOp.getReadBuffer = some bv := by
          simp [BufferVector.apply, BufferVector.getReadBuffer, hm]
        rw [e] at h
        exact ih bv s n hinv hfit h
      | WO => simp [BufferVector.apply, BufferVector.getReadBuffer, hm] at h
    | getLength =>
      have e : bv.apply BVOp.getLength = some bv := rfl
      rw [e] at h
      exact ih bv s n hinv hfit h

theorem new_Inv {T : Type} [Sized T] (capacity : Nat)
    (hcap : capacity * Sized.sizeof T < 18446744073709551616) :
    (BufferVector.new T capacity).Inv capacity 0 := by
  refine ⟨rfl, Nat.zero_le _, ⟨0, by simp [BufferVector.new]⟩, ?_, hcap⟩
  show (capacity * Sized.sizeof T) % 18446744073709551616 = capacity * Sized.sizeof T
  exact Nat.mod_eq_of_lt hcap

theorem contents_succ {T : Type} (bv : BufferVector T) (n : Nat) :
    bv.contents (n + 1) = bv.contents n ++ [bv.buf n] := by
  simp [BufferVector.contents, List.range_succ]

theorem exec_inserts {T : Type} [Sized T] (c : Nat) (hc : 1 ≤ c) (vs : List T) :
    ∀ (bv : BufferVector T) (l : List T) (n : Nat), bv.mode = OpMode.WO → bv.Inv c n →
      2 * (n + vs.length) * Sized.sizeof T < 18446744073709551616 →
      bv.contents n = l.map some →
      ∃ s, bv.exec (vs.map BVOp.insert) = some s ∧ s.mode = OpMode.WO ∧
        s.Inv c (n + vs.length) ∧
        s.contents (n + vs.length) = (l ++ vs).map some := by
  induction vs with
  | nil =>
    intro bv l n hm hinv _ hl
    exact ⟨bv, rfl, hm, hinv, by simpa using hl⟩
  | cons v vs ih =>
    intro bv l n hm hinv hfit hl
    have he : n + (v :: vs).length = n + 1 + vs.length := by
      simp only [List.length_cons]; omega
    rw [he] at hfit ⊢
    have hle : 2 * n * Sized.sizeof T ≤ 2 * (n + 1 + vs.length) * Sized.sizeof T :=
      Nat.mul_le_mul_right _ (by omega)
    obtain ⟨h1, _, _, h4, h5, _, h7⟩ := insert_step c n bv v hc hinv hm (by omega)
    have hc1 : (bv.insert v).state.contents (n + 1) = (l ++ [v]).map some := by
      rw [contents_succ, h4, List.map_append, ← hl]
      congr 1
      simp only [BufferVector.contents]
      apply List.map_congr_left
      intro i hi
      exact h7 i (List.mem_range.mp hi)
    obtain ⟨s, e1, e2, e3, e4⟩ := ih (bv.insert v).state (l ++ [v]) (n + 1) h5 h1 hfit hc1
    refine ⟨s, ?_, e2, e3, ?_⟩
    · simp only [List.map_cons, BufferVector.exec, BufferVector.apply]
      rw [insert_of_WO bv v hm] at e1 ⊢
      exact e1
    · rw [e4]; simp

/-- The growth of a vector constructed with capacity at least 1, as long as the byte counts
do not wrap in `size_t`: after the inserts of `v1..vn` in WO mode none aborted,
`getLength()` is `n`, the first `n` elements of the block are `v1..vn` in insertion order,
`nextIndex <= size` and the block has room for `size` elements, so that every store was
inside the block of its time. -/
theorem inserts_without_wrap {T : Type} [Sized T] (capacity : Nat) (vs : List T)
    (hc : 1 ≤ capacity)
    (hcap : capacity * Sized.sizeof T < 18446744073709551616)
    (hfit : 2 * vs.length * Sized.sizeof T < 18446744073709551616) :
    ∃ s, (BufferVector.new T capacity).exec (vs.map BVOp.insert) = some s ∧
      s.getLength = vs.length ∧
      s.contents vs.length = vs.map some ∧
      s.nextIndex ≤ s.size ∧
      s.buf.bytes = s.size * Sized.sizeof T := by
  obtain ⟨s, h1, _, h3, h4⟩ := exec_inserts capacity hc vs (BufferVector.new T capacity) [] 0
    rfl (new_Inv capacity hcap) (by rw [Nat.zero_add]; exact hfit) rfl
  rw [Nat.zero_add] at h3 h4
  obtain ⟨hn, hle, _, hb, _⟩ := h3
  exact ⟨s, h1, hn, by simpa using h4, by rw [hn]; exact hle, hb⟩

/-! ## The latch across cores -/

/-- C15: `complete(GlobalAddress<CompletionEvent>)` called on core `mycore`. When the owner
of the latch is `mycore`, the call is `complete()` on the local latch and ships nothing.
Otherwise it changes no latch and logs or wakes nothing anywhere, and ships exactly one
closure to the owning core; the handler of that closure, whenever it is delivered, is
`complete()` on the latch there. -/
theorem complete_global (w w1 : LatchWorld) (mycore : Core) (ce : GlobalAddress) :
    (ce.node = mycore →
      (complete w mycore ce).sent = w.sent ∧
      (complete w mycore ce).latches mycore ce.pointer
        = (w.latches mycore ce.pointer).complete.1 ∧
      (complete w mycore ce).events mycore
        = w.events mycore ++ (w.latches mycore ce.pointer).complete.2 ∧
      (∀ c p, (c, p) ≠ (mycore, ce.pointer) →
        (complete w mycore ce).latches c p = w.latches c p) ∧
      ∀ c, c ≠ mycore → (complete w mycore ce).events c = w.events c) ∧
    (ce.node ≠ mycore →
      (complete w mycore ce).latches = w.latches ∧
      (complete w mycore ce).events = w.events ∧
      (complete w mycore ce).sent = w.sent ++ [(ce.node, { ce := ce })] ∧
      (complete w mycore ce).deliver w.sent.length = w.completeAt ce.node ce.pointer ∧
      (CompleteClosure.handler { ce := ce } w1 ce.node).latches ce.node ce.pointer
        = (w1.latches ce.node ce.pointer).complete.1 ∧
      (CompleteClosure.handler { ce := ce } w1 ce.node).events ce.node
        = w1.events ce.node ++ (w1.latches ce.node ce.pointer).complete.2 ∧
      (CompleteClosure.handler { ce := ce } w1 ce.node).sent = w1.sent) := by
  constructor
  · intro h
    simp only [complete, h, if_true, LatchWorld.completeAt, Function.update_same]
    refine ⟨trivial, trivial, trivial, ?_, ?_⟩
    · intro c p hne
      by_cases hc : c = mycore
      · subst hc
        have hp : p ≠ ce.pointer := fun e => hne (by rw [e])
        simp [Function.update_noteq hp]
      · simp [Function.update_noteq hc]
    · intro c hc
      simp [Function.update_noteq hc]
  · intro h
    have hs : (complete w mycore ce).sent = w.sent ++ [(ce.node, { ce := ce })] := by
      simp [complete, h, send_message]
    refine ⟨?_, ?_, hs, ?_, ?_, ?_, ?_⟩
    · simp [complete, h, send_message]
    · simp [complete, h, send_message]
    · have h1 : (complete w mycore ce).sent[w.sent.length]?
          = some (ce.node, ({ ce := ce } : CompleteClosure)) := by rw [hs]; simp
      have h2 : (complete w mycore ce).sent.eraseIdx w.sent.length = w.sent := by
        rw [hs, List.eraseIdx_append_of_length_le (Nat.le_refl _)]
        simp
      simp only [LatchWorld.deliver, h1, h2, CompleteClosure.handler]
      simp [complete, h, send_message, LatchWorld.completeAt]
    · simp [CompleteClosure.handler, LatchWorld.completeAt]
    · simp [CompleteClosure.handler, LatchWorld.completeAt]
    · simp [CompleteClosure.handler, LatchWorld.completeAt]

/-- The latch at address 64 of core 1, completed once from core 1 itself and once from
core 0: the local call wakes task 7 and ships nothing; the remote call leaves the latch at
count 1 and ships one closure to core 1, whose delivery wakes task 7. -/
theorem complete_global_witness :
    ((complete LatchWorld.example 1 ⟨1, 64⟩).latches 1 64).count = 0 ∧
    (complete LatchWorld.example 1 ⟨1, 64⟩).events 1 = [Event.broadcast [7]] ∧
    (complete LatchWorld.example 1 ⟨1, 64⟩).sent = [] ∧
    ((complete LatchWorld.example 0 ⟨1, 64⟩).latches 1 64).count = 1 ∧
    (complete LatchWorld.example 0 ⟨1, 64⟩).sent = [(1, { ce := ⟨1, 64⟩ })] ∧
    (((complete LatchWorld.example 0 ⟨1, 64⟩).deliver 0).latches 1 64).count = 0 ∧
    ((complete LatchWorld.example 0 ⟨1, 64⟩).deliver 0).events 1 = [Event.broadcast [7]] :=
  have hl := (complete_global LatchWorld.example LatchWorld.example 1 ⟨1, 64⟩).1 rfl
  have hr := (complete_global LatchWorld.example LatchWorld.example 0 ⟨1, 64⟩).2 (by decide)
  have hd : (complete LatchWorld.example 0 ⟨1, 64⟩).deliver 0
      = LatchWorld.example.completeAt 1 64 := hr.2.2.2.1
  ⟨by rw [hl.2.1]; decide, by rw [hl.2.2.1]; decide, hl.1,
    by rw [hr.1]; rfl, hr.2.2.1,
    by rw [hd]; decide, by rw [hd]; decide⟩

/-! ## Private tasks that complete a latch -/

theorem complete_count (ce : CompletionEvent) :
    ce.complete.1.count = wrap64 (ce.count - 1) := by
  unfold CompletionEvent.complete
  simp only
  split <;> rfl

theorem privateTask_eq {σ : Type} (w : TaskWorld σ) (tf : TaskFn σ) :
    privateTask w tf =
      { latch := { cv := w.latch.cv, count := wrap64 (w.latch.count + 1) }
        state := w.state
        spawned := w.spawned ++ [tf]
        trace := w.trace ++ [TaskStep.enroll, TaskStep.spawn] } := by
  simp [privateTask, spawn_private, CompletionEvent.enroll]

theorem runSpawned_last {σ : Type} (w : TaskWorld σ) (l : List (TaskFn σ)) (tf : TaskFn σ)
    (h : w.spawned = l ++ [tf]) :
    w.runSpawned l.length = TaskWorld.body { w with spawned := l } tf := by
  have h1 : w.spawned[l.length]? = some tf := by rw [h]; simp
  have h2 : w.spawned.eraseIdx l.length = l := by
    rw [h, List.eraseIdx_append_of_length_le (Nat.le_refl _)]
    simp
  simp only [TaskWorld.runSpawned, h1, h2]

/-- C16: `privateTask(ce, tf)` enrolls before the completion can run. With the count `c`
below the largest `int64_t`, the call returns with the count at `c + 1` and the task spawned
but not run. The task, in whatever world it runs, runs `tf` first and calls `complete()`
afterwards, which takes one off the count `tf` leaves. So with a `tf` that leaves the latch
alone and nothing else in between, the count is still `c + 1` when `tf` is done, and it is
back at `c` when the task has finished. -/
theorem privateTask_enrolls_first {σ : Type} (w v : TaskWorld σ) (tf : TaskFn σ)
    (hr : inInt64 w.latch.count) (hmax : w.latch.count < 9223372036854775807) :
    let w1 := privateTask w tf
    let w2 := w1.runSpawned w.spawned.length
    (w1.latch.count = w.latch.count + 1 ∧
      w1.latch.cv = w.latch.cv ∧
      w1.state = w.state ∧
      w1.spawned = w.spawned ++ [tf] ∧
      w1.trace = w.trace ++ [TaskStep.enroll, TaskStep.spawn]) ∧
    ((TaskWorld.body v tf).latch.count = wrap64 ((tf v.latch v.state).1.count - 1) ∧
      (TaskWorld.body v tf).state = (tf v.latch v.state).2 ∧
      (TaskWorld.body v tf).trace = v.trace ++ [TaskStep.tf,
        TaskStep.complete (tf v.latch v.state).1.complete.2]) ∧
    (w2.state = (tf w1.latch w.state).2 ∧
      w2.spawned = w.spawned ∧
      w2.trace = w.trace ++ [TaskStep.enroll, TaskStep.spawn, TaskStep.tf,
        TaskStep.complete (tf w1.latch w.state).1.complete.2]) ∧
    ((∀ l s, (tf l s).1 = l) →
      (tf w1.latch w1.state).1.count = w.latch.count + 1 ∧
      w2.latch.count = w.latch.count) := by
  intro w1 w2
  have hw1 : w1 = _ := privateTask_eq w tf
  have hc1 : wrap64 (w.latch.count + 1) = w.latch.count + 1 :=
    wrap64_of_inInt64 (by unfold inInt64 at hr ⊢; omega)
  have hc2 : wrap64 (w.latch.count + 1 - 1) = w.latch.count :=
    (congrArg wrap64 (by ring)).trans (wrap64_of_inInt64 hr)
  have hw2 : w2 = TaskWorld.body { w1 with spawned := w.spawned } tf :=
    runSpawned_last w1 w.spawned tf (by rw [hw1])
  have hl1 : w1.latch.count = w.latch.count + 1 := by rw [hw1]; exact hc1
  refine ⟨⟨hl1, ?_, ?_, ?_, ?_⟩, ⟨?_, rfl, rfl⟩, ⟨?_, ?_, ?_⟩, ?_⟩
  · rw [hw1]
  · rw [hw1]
  · rw [hw1]
  · rw [hw1]
  · simp only [TaskWorld.body, complete_count]
  · rw [hw2]
    simp only [TaskWorld.body]
    rw [hw1]
  · rw [hw2]
    simp only [TaskWorld.body]
  · rw [hw2]
    simp only [TaskWorld.body]
    rw [hw1]
    simp
  · intro htf
    refine ⟨by rw [htf]; exact hl1, ?_⟩
    rw [hw2]
    simp only [TaskWorld.body, htf, complete_count]
    rw [hl1, hc2]

/-- A fresh latch at count 0 and a `tf` that bumps the program state: the count is 1 after
the call and 0 after the task, whose `complete()` comes after `tf` and broadcasts. -/
theorem privateTask_enrolls_first_witness :
    (privateTask (σ := Nat) ⟨CompletionEvent.new 0, 5, [], []⟩
      (fun l s => (l, s + 1))).latch.count = 1 ∧
    ((privateTask (σ := Nat) ⟨CompletionEvent.new 0, 5, [], []⟩
      (fun l s => (l, s + 1))).runSpawned 0).latch.count = 0 ∧
    ((privateTask (σ := Nat) ⟨CompletionEvent.new 0, 5, [], []⟩
      (fun l s => (l, s + 1))).runSpawned 0).state = 6 ∧
    ((privateTask (σ := Nat) ⟨CompletionEvent.new 0, 5, [], []⟩
      (fun l s => (l, s + 1))).runSpawned 0).trace
      = [TaskStep.enroll, TaskStep.spawn, TaskStep.tf,
          TaskStep.complete [Event.broadcast []]] :=
  have h := privateTask_enrolls_first (σ := Nat) ⟨CompletionEvent.new 0, 5, [], []⟩
    ⟨CompletionEvent.new 0, 5, [], []⟩ (fun l s => (l, s + 1)) (by decide) (by decide)
  ⟨h.1.1, (h.2.2.2 (fun _ _ => rfl)).2, h.2.2.1.1, by decide⟩

/-! ## Counting on the latch -/

theorem wrap64_add_sub (a e k : Int) : wrap64 (wrap64 a + e - k) = wrap64 (a + e - k) := by
  unfold wrap64
  omega

theorem after_count_wrap (ops : List Op) : ∀ ce : CompletionEvent,
    wrap64 (ce.after ops).count = wrap64 (ce.count + enrolled ops - completions ops) := by
  induction ops with
  | nil =>
    intro ce
    simp [CompletionEvent.after, enrolled, completions]
  | cons op ops ih =>
    intro ce
    cases op with
    | enroll inc =>
      have hc : completions (Op.enroll inc :: ops) = completions ops := by simp [completions]
      rw [CompletionEvent.after, ih, hc]
      simp only [CompletionEvent.step, CompletionEvent.enroll, enrolled]
      rw [wrap64_add_sub]
      congr 1
      ring
    | complete =>
      have hc : completions (Op.complete :: ops) = completions ops + 1 := by simp [completions]
      rw [CompletionEvent.after, ih, hc]
      simp only [CompletionEvent.step, complete_count, enrolled]
      rw [wrap64_add_sub]
      congr 1
      push_cast
      ring
    | wait t =>
      have hc : completions (Op.wait t :: ops) = completions ops := by simp [completions]
      have hw : (ce.wait t).1.count = ce.count := by
        unfold CompletionEvent.wait
        split <;> rfl
      rw [CompletionEvent.after, ih, hc]
      simp only [CompletionEvent.step, hw, enrolled]

theorem after_inInt64 (ops : List Op) : ∀ ce : CompletionEvent,
    inInt64 ce.count → inInt64 (ce.after ops).count := by
  induction ops with
  | nil => intro ce h; exact h
  | cons op ops ih =>
    intro ce h
    rw [CompletionEvent.after]
    apply ih
    cases op with
    | enroll inc => exact wrap64_inInt64 _
    | complete =>
      simp only [CompletionEvent.step, complete_count]
      exact wrap64_inInt64 _
    | wait t =>
      have hw : (ce.wait t).1.count = ce.count := by
        unfold CompletionEvent.wait
        split <;> rfl
      simp only [CompletionEvent.step, hw]
      exact h

/-- C17: the count is never saturated. For every latch and every sequence of calls, when
the initial count and the value `c0 + (sum of the enrolled increments) - (number of
complete() calls)` are within `int64_t` range, the count afterwards is that value, negative
or not; and `wait()` called with a count `<= 0` returns at once, suspending nobody and
changing nothing. -/
theorem count_not_saturated (ce ce1 : CompletionEvent) (ops : List Op) (t : Task)
    (h0 : inInt64 ce.count)
    (hr : inInt64 (ce.count + enrolled ops - completions ops))
    (hle : ce1.count ≤ 0) :
    (ce.after ops).count = ce.count + enrolled ops - completions ops ∧
    ce1.wait t = (ce1, []) := by
  constructor
  · have h1 := after_count_wrap ops ce
    rw [wrap64_of_inInt64 (after_inInt64 ops ce h0), wrap64_of_inInt64 hr] at h1
    exact h1
  · have hn : ¬ ce1.count > 0 := by omega
    simp [CompletionEvent.wait, hn]

/-- A latch constructed with count 1: after two completions, an enroll of 3 and five more
completions the count is -3, and a `wait()` then returns at once. -/
theorem count_not_saturated_witness :
    ((CompletionEvent.new 1).after [Op.complete, Op.complete, Op.enroll 3, Op.complete,
      Op.complete, Op.complete, Op.complete, Op.complete]).count = -3 ∧
    ((CompletionEvent.new 1).after [Op.complete, Op.complete, Op.enroll 3, Op.complete,
      Op.complete, Op.complete, Op.complete, Op.complete]).wait 9
      = ((CompletionEvent.new 1).after [Op.complete, Op.complete, Op.enroll 3, Op.complete,
          Op.complete, Op.complete, Op.complete, Op.complete], []) :=
  have h := count_not_saturated (CompletionEvent.new 1)
    ((CompletionEvent.new 1).after [Op.complete, Op.complete, Op.enroll 3, Op.complete,
      Op.complete, Op.complete, Op.complete, Op.complete])
    [Op.complete, Op.complete, Op.enroll 3, Op.complete,
      Op.complete, Op.complete, Op.complete, Op.complete] 9
    (by decide) (by decide) (by decide)
  ⟨h.1, h.2⟩

end Grappa
